import Mathlib

/-!
Verification of the TrajectoryData plugin core (Source/TrajectoryData) against
its natural-language specification.

The C++ sources are shallowly embedded: machine integers (int32 / int64 /
uint64) are modelled as Int (no claim under study depends on wrap-around),
FString as String, TArray as List, TMap / TSet by association lists with the
source's overwrite-on-add semantics made explicit, and memory-mapped binary
file contents as already-parsed structured values.  A stored position sample
is an Option: none stands for the NaN sentinel triple that the source detects
with FMath::IsNaN on each component.
-/

namespace TrajectoryData

/-- A 3-component position vector (FVector).  Coordinates are opaque payload
for every claim under study - the code only copies and compares them - so they
are modelled with integer components. -/
structure FVec where
  x : Int
  y : Int
  z : Int
deriving DecidableEq, Repr

/-- The all-zero vector (FVector::ZeroVector, and the value SetNumZeroed
fills slots with). -/
def fvecZero : FVec := ⟨0, 0, 0⟩

/-- A stored position slot in a shard file; none models the NaN sentinel. -/
abbrev StoredSample := Option FVec

/-- FDatasetMetaBinary (TrajectoryDataStructures.h), restricted to the fields
the loading and query paths read after magic validation (magic, version,
endianness, bounding box, trajectory ids and timestamps are carried through
unread by the code under verification). -/
structure FDatasetMetaBinary where
  firstTimeStep : Int
  lastTimeStep : Int
  timeStepIntervalSize : Int
  entrySizeBytes : Int
deriving DecidableEq, Repr

/-- FTrajectoryMetaBinary: per-trajectory metadata record (extent and the
shard/offset hints are carried through unread by the verified paths). -/
structure FTrajectoryMetaBinary where
  trajectoryId : Int
  startTimeStep : Int
  endTimeStep : Int
deriving DecidableEq, Repr

/-- FDataBlockHeaderBinary: shard file header (magic/version/endianness are
subsumed by the validity of the parse; DataSectionOffset is subsumed by the
structured entry list of ShardFile). -/
structure FDataBlockHeaderBinary where
  globalIntervalIndex : Int
  timeStepIntervalSize : Int
  trajectoryEntryCount : Int
deriving DecidableEq, Repr

/-- One trajectory entry of a shard file: FTrajectoryEntryHeaderBinary
followed by its positions array. -/
structure ShardEntry where
  trajectoryId : Int
  startTimeStepInInterval : Int
  validSampleCount : Int
  positions : List StoredSample
deriving DecidableEq, Repr

/-- A parsed shard file: header plus data section. -/
structure ShardFile where
  header : FDataBlockHeaderBinary
  entries : List ShardEntry
deriving DecidableEq, Repr

/-- The on-disk dataset as the loader sees it.  meta / trajMeta are none when
the corresponding read fails (missing magic, bad size, map failure).  shards
maps the numeric filename index of each shard-N.bin that parses successfully
to its contents (DiscoverShardFiles skips files whose header fails
validation, so only the valid ones appear here); a TMap, so keys are unique. -/
structure DatasetFS where
  datasetPath : String
  directoryExists : Bool
  metaFileExists : Bool
  trajMetaFileExists : Bool
  meta : Option FDatasetMetaBinary
  trajMeta : Option (List FTrajectoryMetaBinary)
  shards : List (Int × ShardFile)
deriving DecidableEq, Repr

/-! ## Shard discovery index (TrajectoryDataLoader.h / DiscoverShardFiles) -/

/-- FShardInfo: a discovered shard's global interval index and its computed
absolute time-step range. -/
structure FShardInfo where
  globalIntervalIndex : Int
  startTimeStep : Int
  endTimeStep : Int
deriving DecidableEq, Repr

/-- FShardInfo::ContainsTimeRange:
EndTimeStep >= RangeStart && StartTimeStep <= RangeEnd. -/
def FShardInfo.ContainsTimeRange (s : FShardInfo) (rangeStart rangeEnd : Int) : Bool :=
  decide (rangeStart ≤ s.endTimeStep) && decide (s.startTimeStep ≤ rangeEnd)

/-- The shard-info construction in UTrajectoryDataLoader::DiscoverShardFiles:
StartTimeStep = FirstTimeStep + GlobalIntervalIndex * TimeStepIntervalSize and
EndTimeStep = StartTimeStep + TimeStepIntervalSize - 1, taking the interval
index from the shard header. -/
def discoverShardInfo (meta : FDatasetMetaBinary) (hdr : FDataBlockHeaderBinary) : FShardInfo :=
  let s := meta.firstTimeStep + hdr.globalIntervalIndex * meta.timeStepIntervalSize
  { globalIntervalIndex := hdr.globalIntervalIndex
    startTimeStep := s
    endTimeStep := s + meta.timeStepIntervalSize - 1 }

/-! ## Memory admission control (TrajectoryDataMemoryEstimator.cpp) -/

/-- FTrajectoryDatasetMetadata (TrajectoryDataTypes.h), restricted to the two
fields CalculateDatasetMemoryFromMetadata reads. -/
structure FTrajectoryDatasetMetadata where
  trajectoryCount : Int
  entrySizeBytes : Int
deriving DecidableEq, Repr

/-- UTrajectoryDataMemoryEstimator::CalculateDatasetMemoryFromMetadata:
dataset meta (76) + 40 bytes per trajectory + one data block header (32) +
EntrySizeBytes per trajectory. -/
def CalculateDatasetMemoryFromMetadata (md : FTrajectoryDatasetMetadata) : Int :=
  let datasetMetaSize : Int := 76
  let trajectoryMetaSize : Int := 40 * md.trajectoryCount
  let dataBlockHeaderSize : Int := 32
  let dataEntriesSize : Int := md.entrySizeBytes * md.trajectoryCount
  datasetMetaSize + trajectoryMetaSize + dataBlockHeaderSize + dataEntriesSize

/-- UTrajectoryDataMemoryEstimator::CanLoadDatasetFromMetadata.
maxTrajectoryDataMemory stands for GetMaxTrajectoryDataMemory(), the
platform-derived 0.75 * total-physical-memory budget (a runtime input), and
estimatedMemoryUsage for the committed-usage counter. -/
def CanLoadDatasetFromMetadata (maxTrajectoryDataMemory estimatedMemoryUsage : Int)
    (md : FTrajectoryDatasetMetadata) : Bool :=
  let requiredMemory := CalculateDatasetMemoryFromMetadata md
  let remainingCapacity := maxTrajectoryDataMemory - estimatedMemoryUsage
  decide (requiredMemory ≤ remainingCapacity)

/-- UTrajectoryDataMemoryEstimator::AddEstimatedUsage: add, then clamp the
counter to non-negative values. -/
def AddEstimatedUsage (estimatedMemoryUsage memoryBytes : Int) : Int :=
  let v := estimatedMemoryUsage + memoryBytes
  if v < 0 then 0 else v

/-- UTrajectoryDataMemoryEstimator::RemoveEstimatedUsage: subtract, then clamp
the counter to non-negative values. -/
def RemoveEstimatedUsage (estimatedMemoryUsage memoryBytes : Int) : Int :=
  let v := estimatedMemoryUsage - memoryBytes
  if v < 0 then 0 else v

/-- UTrajectoryDataMemoryEstimator::ResetEstimatedUsage. -/
def ResetEstimatedUsage (_estimatedMemoryUsage : Int) : Int := 0

/-- The three operations a caller can perform on the estimated-usage
counter. -/
inductive UsageOp
  | add (memoryBytes : Int)
  | remove (memoryBytes : Int)
  | reset
deriving DecidableEq, Repr

/-- One mutation of the usage counter. -/
def applyUsageOp (estimatedMemoryUsage : Int) : UsageOp → Int
  | .add m => AddEstimatedUsage estimatedMemoryUsage m
  | .remove m => RemoveEstimatedUsage estimatedMemoryUsage m
  | .reset => ResetEstimatedUsage estimatedMemoryUsage

/-! ## Asynchronous query entry points (TrajectoryDataCppApi.cpp) -/

/-- FTrajectoryQueryTask::EQueryType. -/
inductive EQueryType
  | SingleTimeStep
  | TimeRange
deriving DecidableEq, Repr

/-- The constructor arguments of an FTrajectoryQueryTask, i.e. the query task
the async entry points start when they accept a request. -/
structure FTrajectoryQueryTask where
  queryType : EQueryType
  datasetPath : String
  trajectoryIds : List Int
  startTimeStep : Int
  endTimeStep : Int
deriving DecidableEq, Repr

/-- FTrajectoryDataCppApi::QuerySingleTimeStepAsync: the returned Bool, and
the query task it starts (none when the request is rejected up front). -/
def QuerySingleTimeStepAsync (datasetPath : String) (trajectoryIds : List Int)
    (timeStep : Int) : Bool × Option FTrajectoryQueryTask :=
  if datasetPath.isEmpty || trajectoryIds.isEmpty then (false, none)
  else (true, some ⟨.SingleTimeStep, datasetPath, trajectoryIds, timeStep, timeStep⟩)

/-- FTrajectoryDataCppApi::QueryTimeRangeAsync: the returned Bool, and the
query task it starts (none when the request is rejected up front). -/
def QueryTimeRangeAsync (datasetPath : String) (trajectoryIds : List Int)
    (startTimeStep endTimeStep : Int) : Bool × Option FTrajectoryQueryTask :=
  if datasetPath.isEmpty || trajectoryIds.isEmpty || decide (endTimeStep < startTimeStep) then
    (false, none)
  else (true, some ⟨.TimeRange, datasetPath, trajectoryIds, startTimeStep, endTimeStep⟩)

/-! ## Trajectory selection (UTrajectoryDataLoader::BuildTrajectoryIdList) -/

/-- ETrajectorySelectionStrategy. -/
inductive ETrajectorySelectionStrategy
  | FirstN
  | Distributed
  | ExplicitList
deriving DecidableEq, Repr

/-- FTrajectoryLoadSelection. -/
structure FTrajectoryLoadSelection where
  trajectoryId : Int
  startTimeStep : Int
  endTimeStep : Int
deriving DecidableEq, Repr

/-- FTrajectoryLoadParams. -/
structure FTrajectoryLoadParams where
  startTimeStep : Int
  endTimeStep : Int
  sampleRate : Int
  selectionStrategy : ETrajectorySelectionStrategy
  numTrajectories : Int
  trajectorySelections : List FTrajectoryLoadSelection
deriving DecidableEq, Repr

/-- The FirstN branch: the ids of the first min(NumTrajectories,
TrajMetas.Num()) metadata records (the loop body for i < NumToLoad). -/
def firstNIds (numTrajectories : Int) (trajMetas : List FTrajectoryMetaBinary) : List Int :=
  (trajMetas.take (min numTrajectories (trajMetas.length : Int)).toNat).map (·.trajectoryId)

/-- The Distributed branch's collection loop
(for i = 0; i < Num && collected < NumToLoad; i += Step).  Each iteration
advances i by Step >= 1 at the call site, so TrajMetas.Num() + 1 fuel always
suffices to reach the loop exit. -/
def distributedLoop (trajMetas : List FTrajectoryMetaBinary) (step numToLoad : Int) :
    Nat → Int → List Int → List Int
  | 0, _, acc => acc
  | fuel + 1, i, acc =>
    if i < (trajMetas.length : Int) ∧ (acc.length : Int) < numToLoad then
      distributedLoop trajMetas step numToLoad fuel (i + step)
        (acc ++ [(trajMetas.getD i.toNat ⟨0, 0, 0⟩).trajectoryId])
    else acc

/-- The Distributed branch: Step = max(1, Num / NumToLoad), every Step-th
record until NumToLoad are collected. -/
def distributedIds (numTrajectories : Int) (trajMetas : List FTrajectoryMetaBinary) : List Int :=
  let numToLoad := min numTrajectories (trajMetas.length : Int)
  if 0 < numToLoad ∧ 0 < trajMetas.length then
    let step := max 1 ((trajMetas.length : Int).tdiv numToLoad)
    distributedLoop trajMetas step numToLoad (trajMetas.length + 1) 0 []
  else []

/-- The ExplicitList branch: the caller-supplied ids that occur in the
trajectory metadata, kept in caller order (AvailableIds is the TSet of all
metadata ids; membership is modelled by List.any). -/
def explicitListIds (selections : List FTrajectoryLoadSelection)
    (trajMetas : List FTrajectoryMetaBinary) : List Int :=
  (selections.map (·.trajectoryId)).filter
    (fun tid => trajMetas.any (fun tm => tm.trajectoryId == tid))

/-- UTrajectoryDataLoader::BuildTrajectoryIdList.  The DatasetMeta argument is
taken but never read by the source function. -/
def BuildTrajectoryIdList (params : FTrajectoryLoadParams) (_datasetMeta : FDatasetMetaBinary)
    (trajMetas : List FTrajectoryMetaBinary) : List Int :=
  match params.selectionStrategy with
  | .FirstN => firstNIds params.numTrajectories trajMetas
  | .Distributed => distributedIds params.numTrajectories trajMetas
  | .ExplicitList => explicitListIds params.trajectorySelections trajMetas

/-! ## Parallel load pipeline (UTrajectoryDataLoader::LoadTrajectoriesInternal) -/

/-- FMath::Clamp on ints: X < Min ? Min : (X < Max ? X : Max). -/
def clampInt (x lo hi : Int) : Int :=
  if x < lo then lo else if x < hi then x else hi

/-- The samples one shard entry contributes for one trajectory
(LoadTrajectoriesInternal lines 467-559): the valid range from the entry
header, clamped to the requested time range and to the shard's interval, then
either the bulk-memcpy fast path (sample rate 1, which copies NaN slots
through unchecked) or the strided slow path (which skips NaN slots; the
source's while loop visits exactly LoadStart + i * SampleRate for
i < ceil((LoadEnd - LoadStart) / SampleRate)).  Each output sample is paired
with the absolute time step it was stored at (shard start + slot index) - a
ghost annotation used to state temporal ordering; the source keeps positions
only.  A sample rate below 1 reaches a division by zero in the source
(undefined behaviour) and is modelled as contributing nothing.
entryLoadStart is LoadStart: the entry's valid-range start, raised to the
requested range start and clamped to [0, TimeStepIntervalSize]. -/
def entryLoadStart (params : FTrajectoryLoadParams) (shardStartTimeStep : Int)
    (headerIntervalSize : Int) (entry : ShardEntry) : Int :=
  let validRangeStart := entry.startTimeStepInInterval
  let loadStart0 := if 0 ≤ params.startTimeStep then
      max validRangeStart (params.startTimeStep - shardStartTimeStep) else validRangeStart
  clampInt loadStart0 0 headerIntervalSize

/-- LoadEnd: the entry's valid-range end (exclusive), lowered to the requested
range end + 1 and clamped to [0, TimeStepIntervalSize]. -/
def entryLoadEnd (params : FTrajectoryLoadParams) (shardStartTimeStep : Int)
    (headerIntervalSize : Int) (entry : ShardEntry) : Int :=
  let validRangeEnd := entry.startTimeStepInInterval + entry.validSampleCount
  let loadEnd0 := if 0 ≤ params.endTimeStep then
      min validRangeEnd (params.endTimeStep - shardStartTimeStep + 1) else validRangeEnd
  clampInt loadEnd0 0 headerIntervalSize

/-- The extraction itself, dispatching on the sample rate (see the comment on
entryLoadStart). -/
def extractEntrySamples (params : FTrajectoryLoadParams) (shardStartTimeStep : Int)
    (headerIntervalSize : Int) (entry : ShardEntry) : List (Int × StoredSample) :=
  let loadStart := entryLoadStart params shardStartTimeStep headerIntervalSize entry
  let loadEnd := entryLoadEnd params shardStartTimeStep headerIntervalSize entry
  if loadEnd ≤ loadStart then []
  else if params.sampleRate = 1 then
    (List.range (loadEnd - loadStart).toNat).map (fun (i : Nat) =>
      (shardStartTimeStep + loadStart + (i : Int),
        entry.positions.getD (loadStart + (i : Int)).toNat none))
  else if 1 ≤ params.sampleRate then
    let numSamplesToLoad := (loadEnd - loadStart + params.sampleRate - 1).tdiv params.sampleRate
    ((List.range numSamplesToLoad.toNat).map (fun (i : Nat) =>
        let t := loadStart + (i : Int) * params.sampleRate
        (shardStartTimeStep + t, entry.positions.getD t.toNat none))).filter
      (fun pr => pr.2.isSome)
  else []

/-- TrajMetaMap.Find: the map is built by TMap::Add over the records in file
order, so the last record with a given id wins. -/
def findTrajMeta (trajMetas : List FTrajectoryMetaBinary) (tid : Int) :
    Option FTrajectoryMetaBinary :=
  (trajMetas.filter (fun tm => tm.trajectoryId == tid)).getLast?

/-- TrajIdToEntryIndex lookup: the per-shard index is built by TMap::Add over
entry indices 0 .. TrajectoryEntryCount-1 in increasing order (restricted to
requested ids), so the last matching entry wins. -/
def findEntryForTrajectory (file : ShardFile) (tid : Int) : Option ShardEntry :=
  ((file.entries.take file.header.trajectoryEntryCount.toNat).filter
    (fun e => e.trajectoryId == tid)).getLast?

/-- The per-trajectory body of the inner ParallelFor: skip when the trajectory
has no metadata record, does not intersect the shard interval, or has no entry
in the shard; otherwise extract its samples from the entry. -/
def extractShardTrajectory (params : FTrajectoryLoadParams) (info : FShardInfo)
    (file : ShardFile) (trajMetas : List FTrajectoryMetaBinary) (tid : Int) :
    List (Int × StoredSample) :=
  match findTrajMeta trajMetas tid with
  | none => []
  | some tm =>
    if tm.endTimeStep < info.startTimeStep ∨ info.endTimeStep < tm.startTimeStep then []
    else
      match findEntryForTrajectory file tid with
      | none => []
      | some entry =>
        extractEntrySamples params info.startTimeStep file.header.timeStepIntervalSize entry

/-- One shard's result map (FShardTrajectoryData.TrajectorySamples): keyed by
requested trajectory id - duplicate requested ids collapse to one key, since
TMap::Add overwrites with an identical value - and empty sample lists are not
stored (the source only Adds when ShardSamples.Num() > 0). -/
def extractShardResult (params : FTrajectoryLoadParams) (ids : List Int)
    (trajMetas : List FTrajectoryMetaBinary) (info : FShardInfo) (file : ShardFile) :
    List (Int × List (Int × StoredSample)) :=
  ids.dedup.filterMap (fun tid =>
    let s := extractShardTrajectory params info file trajMetas tid
    if s.isEmpty then none else some (tid, s))

/-- The parallel per-shard phase: slot i of the pre-sized result array
(ShardResults) receives shard i's extraction output; order lists the sequence
in which the parallel workers complete their slots. -/
def fillSlotsFun {β : Type} (f : Nat → β) (order : List Nat) : Nat → Option β :=
  order.foldl (fun slots i => Function.update slots i (some (f i))) (fun _ => none)

/-- StartTime resolution: Params.StartTimeStep < 0 selects the dataset
start. -/
def resolvedStartTime (meta : FDatasetMetaBinary) (params : FTrajectoryLoadParams) : Int :=
  if params.startTimeStep < 0 then meta.firstTimeStep else params.startTimeStep

/-- EndTime resolution: Params.EndTimeStep < 0 selects the dataset end. -/
def resolvedEndTime (meta : FDatasetMetaBinary) (params : FTrajectoryLoadParams) : Int :=
  if params.endTimeStep < 0 then meta.lastTimeStep else params.endTimeStep

/-- The discovery table (DiscoverShardFiles): filename index, computed shard
info, shard contents. -/
def shardInfoTable (meta : FDatasetMetaBinary) (fs : DatasetFS) :
    List (Int × FShardInfo × ShardFile) :=
  fs.shards.map (fun kv => (kv.1, discoverShardInfo meta kv.2.header, kv.2))

/-- The shards whose computed time range intersects the requested range. -/
def relevantShardTable (meta : FDatasetMetaBinary) (fs : DatasetFS)
    (startTime endTime : Int) : List (Int × FShardInfo × ShardFile) :=
  (shardInfoTable meta fs).filter (fun e => (e.2.1).ContainsTimeRange startTime endTime)

/-- RelevantShards before sorting: the keys of the filtered table. -/
def relevantShardKeys (meta : FDatasetMetaBinary) (fs : DatasetFS)
    (startTime endTime : Int) : List Int :=
  (relevantShardTable meta fs startTime endTime).map (·.1)

/-- RelevantShards.Sort(): ascending filename-index order (insertion sort is a
faithful stand-in: the keys are distinct, so any comparison sort produces the
same list). -/
def sortedRelevantShardKeys (meta : FDatasetMetaBinary) (fs : DatasetFS)
    (startTime endTime : Int) : List Int :=
  List.insertionSort (· ≤ ·) (relevantShardKeys meta fs startTime endTime)

/-- ShardInfoTable.Find. -/
def lookupShardByKey (meta : FDatasetMetaBinary) (fs : DatasetFS) (k : Int) :
    Option (FShardInfo × ShardFile) :=
  ((shardInfoTable meta fs).find? (fun e => e.1 == k)).map (·.2)

/-- The work of the shard-level parallel task for slot i: extract the shard at
position i of the sorted relevant-shard list. -/
def extractShardAt (meta : FDatasetMetaBinary) (fs : DatasetFS)
    (params : FTrajectoryLoadParams) (ids : List Int)
    (trajMetas : List FTrajectoryMetaBinary) (startTime endTime : Int) (i : Nat) :
    List (Int × List (Int × StoredSample)) :=
  match (sortedRelevantShardKeys meta fs startTime endTime)[i]? with
  | none => []
  | some k =>
    match lookupShardByKey meta fs k with
    | none => []
    | some (info, file) => extractShardResult params ids trajMetas info file

/-- FLoadedTrajectory.  samples carries the ghost absolute time step of each
sample next to its stored value (the source stores positions only). -/
structure FLoadedTrajectory where
  trajectoryId : Int
  startTimeStep : Int
  endTimeStep : Int
  samples : List (Int × StoredSample)
deriving DecidableEq, Repr

/-- TMap::Add on the trajectory map: replace an existing entry with the same
id, else insert at the end. -/
def upsertTrajectory (trajs : List FLoadedTrajectory) (t : FLoadedTrajectory) :
    List FLoadedTrajectory :=
  if trajs.any (fun u => u.trajectoryId == t.trajectoryId) then
    trajs.map (fun u => if u.trajectoryId == t.trajectoryId then t else u)
  else trajs ++ [t]

/-- TrajectoryMap initialisation: one empty FLoadedTrajectory per requested id
that has a metadata record. -/
def initLoadedTrajectories (ids : List Int) (trajMetas : List FTrajectoryMetaBinary) :
    List FLoadedTrajectory :=
  ids.foldl (fun acc tid =>
    match findTrajMeta trajMetas tid with
    | none => acc
    | some tm => upsertTrajectory acc ⟨tid, tm.startTimeStep, tm.endTimeStep, []⟩) []

/-- Merging one shard's result map: append each per-trajectory sample list to
the matching loaded trajectory (ids without a map entry are dropped). -/
def appendShardSamples (trajs : List FLoadedTrajectory)
    (res : List (Int × List (Int × StoredSample))) : List FLoadedTrajectory :=
  res.foldl (fun acc pr =>
    acc.map (fun tr =>
      if tr.trajectoryId == pr.1 then { tr with samples := tr.samples ++ pr.2 } else tr))
    trajs

/-- The sequential merge phase: fold the per-shard results in slot order, that
is, in sorted-key order. -/
def mergeShardResults (trajs : List FLoadedTrajectory)
    (results : List (List (Int × List (Int × StoredSample)))) : List FLoadedTrajectory :=
  results.foldl appendShardSamples trajs

/-- FTrajectoryLoadResult. -/
structure FTrajectoryLoadResult where
  bSuccess : Bool
  errorMessage : String
  trajectories : List FLoadedTrajectory
  loadedStartTimeStep : Int
  loadedEndTimeStep : Int
deriving DecidableEq, Repr

/-- An early-return failure result. -/
def loadFailure (msg : String) : FTrajectoryLoadResult :=
  { bSuccess := false, errorMessage := msg, trajectories := [],
    loadedStartTimeStep := 0, loadedEndTimeStep := 0 }

/-- UTrajectoryDataLoader::LoadTrajectoriesInternal.  order is the completion
order of the parallel per-shard tasks (the ParallelFor); each task writes only
its own slot of the pre-sized result array, and the sequential merge then
walks the slots in sorted-key order. -/
def LoadTrajectoriesInternalWithOrder (fs : DatasetFS) (params : FTrajectoryLoadParams)
    (order : List Nat) : FTrajectoryLoadResult :=
  match fs.meta with
  | none => loadFailure "Failed to read dataset metadata"
  | some meta =>
    match fs.trajMeta with
    | none => loadFailure "Failed to read trajectory metadata"
    | some trajMetas =>
      let ids := BuildTrajectoryIdList params meta trajMetas
      if ids.isEmpty then loadFailure "No trajectories to load"
      else
        let startTime := resolvedStartTime meta params
        let endTime := resolvedEndTime meta params
        let sortedKeys := sortedRelevantShardKeys meta fs startTime endTime
        let slots := fillSlotsFun
          (extractShardAt meta fs params ids trajMetas startTime endTime) order
        let shardResults := (List.range sortedKeys.length).map (fun i => (slots i).getD [])
        let merged := mergeShardResults (initLoadedTrajectories ids trajMetas) shardResults
        { bSuccess := true, errorMessage := "", trajectories := merged,
          loadedStartTimeStep := startTime, loadedEndTimeStep := endTime }

/-- UTrajectoryDataLoader::LoadTrajectoriesSync: takes the load mutex and runs
LoadTrajectoriesInternal (with a plain sequential completion order; the slot
count never exceeds the number of discovered shard files). -/
def LoadTrajectoriesSync (fs : DatasetFS) (params : FTrajectoryLoadParams) :
    FTrajectoryLoadResult :=
  LoadTrajectoriesInternalWithOrder fs params (List.range fs.shards.length)

/-- The sample list a trajectory-map state holds for one trajectory id. -/
def samplesIn (trajs : List FLoadedTrajectory) (tid : Int) : List (Int × StoredSample) :=
  ((trajs.find? (fun tr => tr.trajectoryId == tid)).map (·.samples)).getD []

/-- The sample list a load result holds for one trajectory id. -/
def loadedSamplesFor (result : FTrajectoryLoadResult) (tid : Int) :
    List (Int × StoredSample) :=
  samplesIn result.trajectories tid

/-- Lookup in a per-shard result map. -/
def resLookup (tid : Int) (res : List (Int × List (Int × StoredSample))) :
    List (Int × StoredSample) :=
  ((res.find? (fun pr => pr.1 == tid)).map (·.2)).getD []

/-! ## Parameter validation (UTrajectoryDataLoader::ValidateLoadParams) -/

/-- A disk read of actual file contents (existence probes are not reads). -/
inductive DiskRead
  | datasetMeta
  | trajMeta
  | shard (index : Int)
deriving DecidableEq, Repr

/-- FTrajectoryLoadValidation. -/
structure FTrajectoryLoadValidation where
  bCanLoad : Bool
  message : String
  estimatedMemoryBytes : Int
  numTrajectoriesToLoad : Int
  numSamplesPerTrajectory : Int
deriving DecidableEq, Repr

/-- A failed validation together with the reads performed before it. -/
def vfail (msg : String) (reads : List DiskRead) :
    FTrajectoryLoadValidation × List DiskRead :=
  ({ bCanLoad := false, message := msg, estimatedMemoryBytes := 0,
     numTrajectoriesToLoad := 0, numSamplesPerTrajectory := 0 }, reads)

/-- UTrajectoryDataLoader::ValidateLoadParams, instrumented with the ordered
list of file contents it reads.  available stands for the byte budget the
source derives from the memory-estimator singleton at lines 131-136 (the
lossy float-GB round-trip is abstracted into one integer input); the
formatted Printf messages are abbreviated to fixed strings. -/
def ValidateLoadParams (fs : DatasetFS) (params : FTrajectoryLoadParams)
    (available : Int) : FTrajectoryLoadValidation × List DiskRead :=
  if fs.datasetPath.isEmpty then vfail "Dataset path is empty" []
  else if !fs.directoryExists then vfail "Dataset directory does not exist" []
  else if !fs.metaFileExists then vfail "dataset-meta.bin not found" []
  else if !fs.trajMetaFileExists then vfail "dataset-trajmeta.bin not found" []
  else
    match fs.meta with
    | none => vfail "Failed to read dataset metadata" [.datasetMeta]
    | some meta =>
      let startTime := resolvedStartTime meta params
      let endTime := resolvedEndTime meta params
      if endTime ≤ startTime then
        vfail "Invalid time range: start must be less than end" [.datasetMeta]
      else if params.sampleRate < 1 then
        vfail "Sample rate must be at least 1" [.datasetMeta]
      else
        match fs.trajMeta with
        | none => vfail "Failed to read trajectory metadata" [.datasetMeta, .trajMeta]
        | some trajMetas =>
          let ids := BuildTrajectoryIdList params meta trajMetas
          if ids.isEmpty then
            vfail "No trajectories selected to load" [.datasetMeta, .trajMeta]
          else
            let numSamples := (endTime - startTime).tdiv params.sampleRate
            let bytesPerSample : Int := 12
            let sampleMemory := (ids.length : Int) * numSamples * bytesPerSample
            let trajMetaMemory := (ids.length : Int) * 128
            let estimated := sampleMemory + trajMetaMemory
            if available < estimated then
              ({ bCanLoad := false, message := "Insufficient memory",
                 estimatedMemoryBytes := estimated,
                 numTrajectoriesToLoad := ids.length,
                 numSamplesPerTrajectory := numSamples }, [.datasetMeta, .trajMeta])
            else
              ({ bCanLoad := true, message := "Can load trajectories",
                 estimatedMemoryBytes := estimated,
                 numTrajectoriesToLoad := ids.length,
                 numSamplesPerTrajectory := numSamples }, [.datasetMeta, .trajMeta])

/-- UTrajectoryDataLoader::LoadTrajectoriesAsync: returns false and starts no
task when a load is already running or when validation fails; otherwise
starts the background load task.  The pair is (returned Bool, task
started). -/
def LoadTrajectoriesAsync (fs : DatasetFS) (params : FTrajectoryLoadParams)
    (bIsLoadingAsync : Bool) (available : Int) : Bool × Bool :=
  if bIsLoadingAsync then (false, false)
  else if !(ValidateLoadParams fs params available).1.bCanLoad then (false, false)
  else (true, true)

/-! ## Query engine (FTrajectoryQueryTask::ExecuteTimeRangeQuery) -/

/-- FTrajectoryTimeSeries: the dense per-trajectory result of a time-range
query (the extent copied from metadata is omitted: no verified property reads
it). -/
structure FTrajectoryTimeSeries where
  trajectoryId : Int
  startTimeStep : Int
  endTimeStep : Int
  samples : List FVec
deriving DecidableEq, Repr

/-- FTrajectoryTimeRangeResult. -/
structure FTrajectoryTimeRangeResult where
  bSuccess : Bool
  errorMessage : String
  timeSeries : List FTrajectoryTimeSeries
deriving DecidableEq, Repr

/-- One iteration of the slot loop (TrajectoryDataCppApi.cpp lines 551-577):
slot r of the interval holds absolute time step intervalStart + r; if that
step lies in the query range and in the entry's valid window and the stored
sample is not NaN, it is written at result index t - startTimeStep. -/
def writeSlotStep (startTimeStep endTimeStep intervalStart : Int) (entry : ShardEntry)
    (smp : List FVec) (r : Nat) : List FVec :=
  let t := intervalStart + (r : Int)
  if startTimeStep ≤ t ∧ t ≤ endTimeStep then
    if entry.startTimeStepInInterval ≤ (r : Int) ∧
        (r : Int) ≤ entry.startTimeStepInInterval + entry.validSampleCount - 1 then
      match entry.positions.getD r none with
      | some v => smp.set (t - startTimeStep).toNat v
      | none => smp
    else smp
  else smp

/-- The whole slot loop over one entry: r = 0 .. TimeStepIntervalSize - 1. -/
def writeEntrySlots (startTimeStep endTimeStep intervalStart intervalSize : Int)
    (entry : ShardEntry) (samples : List FVec) : List FVec :=
  (List.range intervalSize.toNat).foldl
    (writeSlotStep startTimeStep endTimeStep intervalStart entry) samples

/-- One entry's processing: the entry writes into the series carrying its own
trajectory id (TimeSeriesMap.Find), provided StartTimeStepInInterval is not
the -1 sentinel. -/
def applyShardEntry (startTimeStep endTimeStep intervalStart intervalSize : Int)
    (seriesList : List FTrajectoryTimeSeries) (entry : ShardEntry) :
    List FTrajectoryTimeSeries :=
  seriesList.map (fun s =>
    if s.trajectoryId = entry.trajectoryId ∧ entry.startTimeStepInInterval ≠ -1 then
      { s with samples := (writeEntrySlots startTimeStep endTimeStep intervalStart
          intervalSize entry s.samples) }
    else s)

/-- One shard's processing: walk its TrajectoryEntryCount entries in file
order.  IntervalStartTimeStep comes from the loop's interval index here (not
from the header, unlike the single-step query). -/
def processShard (meta : FDatasetMetaBinary) (startTimeStep endTimeStep : Int)
    (intervalIndex : Int) (file : ShardFile)
    (seriesList : List FTrajectoryTimeSeries) : List FTrajectoryTimeSeries :=
  let intervalStart := intervalIndex * meta.timeStepIntervalSize + meta.firstTimeStep
  (file.entries.take file.header.trajectoryEntryCount.toNat).foldl
    (applyShardEntry startTimeStep endTimeStep intervalStart meta.timeStepIntervalSize)
    seriesList

/-- shard-<N>.bin lookup by interval index (the query opens the file named by
the interval index directly). -/
def lookupShardFile (fs : DatasetFS) (k : Int) : Option ShardFile :=
  (fs.shards.find? (fun kv => kv.1 == k)).map (·.2)

/-- The initial result series: one per distinct requested id (TimeSeriesMap is
a TMap keyed by id, so repeated ids collapse to one identically-built entry),
preallocated to EndTimeStep - StartTimeStep + 1 zeroed samples. -/
def initQuerySeries (trajectoryIds : List Int) (startTimeStep endTimeStep : Int) :
    List FTrajectoryTimeSeries :=
  trajectoryIds.dedup.map (fun tid =>
    ⟨tid, startTimeStep, endTimeStep,
     List.replicate (endTimeStep - startTimeStep + 1).toNat fvecZero⟩)

/-- One iteration of the shard loop: open shard-<startIntervalIndex + k>.bin,
skipping it when missing or unparseable. -/
def queryShardStep (meta : FDatasetMetaBinary) (fs : DatasetFS)
    (startTimeStep endTimeStep startIntervalIndex : Int)
    (sl : List FTrajectoryTimeSeries) (k : Nat) : List FTrajectoryTimeSeries :=
  match lookupShardFile fs (startIntervalIndex + (k : Int)) with
  | none => sl
  | some file =>
    processShard meta startTimeStep endTimeStep (startIntervalIndex + (k : Int)) file sl

/-- FTrajectoryQueryTask::ExecuteTimeRangeQuery (the uncancelled run: the
cooperative stop flag stays false).  The Printf-formatted messages are
abbreviated to fixed strings; interval indices use C++ truncating division. -/
def ExecuteTimeRangeQuery (fs : DatasetFS) (trajectoryIds : List Int)
    (startTimeStep endTimeStep : Int) : FTrajectoryTimeRangeResult :=
  if !fs.directoryExists then ⟨false, "Dataset directory does not exist", []⟩
  else if !fs.metaFileExists then ⟨false, "dataset-meta.bin not found", []⟩
  else
    match fs.meta with
    | none => ⟨false, "Failed to read dataset-meta.bin", []⟩
    | some meta =>
      if startTimeStep < meta.firstTimeStep ∨ meta.lastTimeStep < endTimeStep then
        ⟨false, "Time range is out of dataset range", []⟩
      else if !fs.trajMetaFileExists then ⟨false, "dataset-trajmeta.bin not found", []⟩
      else
        match fs.trajMeta with
        | none => ⟨false, "Failed to read dataset-trajmeta.bin", []⟩
        | some _ =>
          ⟨true, "",
           (List.range
              ((endTimeStep - meta.firstTimeStep).tdiv meta.timeStepIntervalSize -
                (startTimeStep - meta.firstTimeStep).tdiv meta.timeStepIntervalSize
                + 1).toNat).foldl
             (queryShardStep meta fs startTimeStep endTimeStep
               ((startTimeStep - meta.firstTimeStep).tdiv meta.timeStepIntervalSize))
             (initQuerySeries trajectoryIds startTimeStep endTimeStep)⟩

/-- The series a query result holds for one trajectory id. -/
def seriesFor (result : FTrajectoryTimeRangeResult) (tid : Int) :
    Option FTrajectoryTimeSeries :=
  result.timeSeries.find? (fun s => s.trajectoryId == tid)

/-- The valid stored sample the dataset holds for trajectory tid at absolute
time step t: locate the shard owning t's interval, the entry with this id
among the header-counted entries, require a valid (non-sentinel) window
containing t's slot, and require the stored slot not to be NaN.  This is the
specification-level description the query result is proved against. -/
def storedValidSampleAt (meta : FDatasetMetaBinary) (fs : DatasetFS) (tid t : Int) :
    Option FVec :=
  let intervalIndex := (t - meta.firstTimeStep).tdiv meta.timeStepIntervalSize
  match lookupShardFile fs intervalIndex with
  | none => none
  | some file =>
    let r := t - (intervalIndex * meta.timeStepIntervalSize + meta.firstTimeStep)
    match (file.entries.take file.header.trajectoryEntryCount.toNat).find?
        (fun e => e.trajectoryId == tid) with
    | none => none
    | some e =>
      if e.startTimeStepInInterval ≠ -1 ∧ e.startTimeStepInInterval ≤ r ∧
          r ≤ e.startTimeStepInInterval + e.validSampleCount - 1 then
        e.positions.getD r.toNat none
      else none

/-! ## Concrete datasets used by counterexamples and witnesses -/

/-- A dataset meta used by concrete examples: time steps 0..9, interval
size 5. -/
def exampleMeta : FDatasetMetaBinary := ⟨0, 9, 5, 76⟩

/-- Parameters used to exhibit that the ExplicitList branch does not
deduplicate the caller's list. -/
def dupListParams : FTrajectoryLoadParams :=
  { startTimeStep := -1, endTimeStep := -1, sampleRate := 1,
    selectionStrategy := .ExplicitList, numTrajectories := 0,
    trajectorySelections := [⟨7, -1, -1⟩, ⟨7, -1, -1⟩] }

/-- A filesystem with valid metadata for time steps 0..9 (interval size 5),
one trajectory 7, and no shard files. -/
def degenerateRangeFS : DatasetFS :=
  { datasetPath := "ds", directoryExists := true, metaFileExists := true,
    trajMetaFileExists := true, meta := some exampleMeta,
    trajMeta := some [⟨7, 0, 9⟩], shards := [] }

/-- Load parameters with a degenerate time range (start 5 = end 5). -/
def degenerateRangeParams : FTrajectoryLoadParams :=
  { startTimeStep := 5, endTimeStep := 5, sampleRate := 1,
    selectionStrategy := .FirstN, numTrajectories := 1, trajectorySelections := [] }

/-- A shard file stored as shard-0.bin whose header says it is global interval
1 (time steps 5..9). -/
def swappedShardA : ShardFile :=
  ⟨⟨1, 5, 1⟩, [⟨7, 0, 5, List.replicate 5 (some ⟨1, 0, 0⟩)⟩]⟩

/-- A shard file stored as shard-1.bin whose header says it is global interval
0 (time steps 0..4). -/
def swappedShardB : ShardFile :=
  ⟨⟨0, 5, 1⟩, [⟨7, 0, 5, List.replicate 5 (some ⟨2, 0, 0⟩)⟩]⟩

/-- A dataset whose two shards cover the disjoint time ranges [5, 9] and
[0, 4], but whose filename indices are swapped relative to time order (the
header's GlobalIntervalIndex is authoritative for time arithmetic, the
filename index is not). -/
def swappedShardFS : DatasetFS :=
  { datasetPath := "ds", directoryExists := true, metaFileExists := true,
    trajMetaFileExists := true, meta := some exampleMeta,
    trajMeta := some [⟨7, 0, 9⟩],
    shards := [(0, swappedShardA), (1, swappedShardB)] }

/-- Full-range FirstN(1) load at sample rate 1. -/
def fullRangeParams : FTrajectoryLoadParams :=
  { startTimeStep := -1, endTimeStep := -1, sampleRate := 1,
    selectionStrategy := .FirstN, numTrajectories := 1, trajectorySelections := [] }

/-- A shard for interval 0 of exampleMeta holding one entry for trajectory 7
whose valid window covers slots 1..2; slot 1 holds (1,2,3), slot 2 holds
(4,5,6), the remaining slots are the NaN sentinel. -/
def queryShard0 : ShardFile :=
  ⟨⟨0, 5, 1⟩, [⟨7, 1, 2, [none, some ⟨1, 2, 3⟩, some ⟨4, 5, 6⟩, none, none]⟩]⟩

/-- A dataset for the time-range query witness: time steps 0..9 with interval
size 5, one trajectory 7, and only shard-0.bin present (the shard of interval
1 is missing, exercising the skip path). -/
def queryFS : DatasetFS :=
  { datasetPath := "ds", directoryExists := true, metaFileExists := true,
    trajMetaFileExists := true, meta := some exampleMeta,
    trajMeta := some [⟨7, 0, 9⟩], shards := [(0, queryShard0)] }

end TrajectoryData

namespace TrajectoryData

/-! ## Theorems: C4, C5, C9, C10, C3, C6 -/

/-- C4: for a shard whose time range is computed by discovery from a dataset
meta with a positive interval size, and any query bounds a <= b,
ContainsTimeRange a b is true iff the closed intervals [startTimeStep,
endTimeStep] and [a, b] share at least one time step. -/
theorem containsTimeRange_iff_overlap (meta : FDatasetMetaBinary)
    (hdr : FDataBlockHeaderBinary) (a b : Int)
    (hsize : 1 ≤ meta.timeStepIntervalSize) (hab : a ≤ b) :
    (discoverShardInfo meta hdr).ContainsTimeRange a b = true ↔
      ∃ t : Int, (discoverShardInfo meta hdr).startTimeStep ≤ t ∧
        t ≤ (discoverShardInfo meta hdr).endTimeStep ∧ a ≤ t ∧ t ≤ b := by
  simp only [FShardInfo.ContainsTimeRange, discoverShardInfo, Bool.and_eq_true,
    decide_eq_true_eq]
  constructor
  · rintro ⟨h1, h2⟩
    exact ⟨max (meta.firstTimeStep + hdr.globalIntervalIndex * meta.timeStepIntervalSize) a,
      le_max_left _ _, by omega, le_max_right _ _, by omega⟩
  · rintro ⟨t, h1, h2, h3, h4⟩
    exact ⟨by omega, by omega⟩

/-- Witness for C4: the boundary-touching case, shard [5, 9] against query
[9, 20]: the shard end equals the query start, and the intersection test
reports an overlap, at time step 9. -/
theorem containsTimeRange_iff_overlap_witness :
    ∃ t : Int, (discoverShardInfo ⟨0, 9, 5, 76⟩ ⟨1, 5, 0⟩).startTimeStep ≤ t ∧
      t ≤ (discoverShardInfo ⟨0, 9, 5, 76⟩ ⟨1, 5, 0⟩).endTimeStep ∧ 9 ≤ t ∧ t ≤ 20 :=
  (containsTimeRange_iff_overlap ⟨0, 9, 5, 76⟩ ⟨1, 5, 0⟩ 9 20 (by decide) (by decide)).mp
    (by decide)

/-- C5: the metadata-level memory estimate is monotone in the trajectory
count (for non-negative entry size), and admission fails whenever the
estimate exceeds the capacity minus the committed-usage counter. -/
theorem memory_estimate_monotone_and_admission (md : FTrajectoryDatasetMetadata)
    (a b : Int) (hentry : 0 ≤ md.entrySizeBytes) (hab : a ≤ b) :
    CalculateDatasetMemoryFromMetadata { md with trajectoryCount := a } ≤
      CalculateDatasetMemoryFromMetadata { md with trajectoryCount := b } ∧
    ∀ maxTrajectoryDataMemory estimatedMemoryUsage : Int,
      maxTrajectoryDataMemory - estimatedMemoryUsage < CalculateDatasetMemoryFromMetadata md →
      CanLoadDatasetFromMetadata maxTrajectoryDataMemory estimatedMemoryUsage md = false := by
  constructor
  · have h := mul_le_mul_of_nonneg_left hab (show (0 : Int) ≤ 40 + md.entrySizeBytes by omega)
    simp only [CalculateDatasetMemoryFromMetadata]
    nlinarith
  · intro maxMem usage h
    simp only [CanLoadDatasetFromMetadata, decide_eq_false_iff_not, not_le]
    omega

/-- Witness for C5 at a concrete metadata record: counts 2 <= 5, entry size
120, and a budget one byte short of the estimate. -/
theorem memory_estimate_monotone_and_admission_witness :
    CalculateDatasetMemoryFromMetadata ⟨2, 120⟩ ≤ CalculateDatasetMemoryFromMetadata ⟨5, 120⟩ ∧
    CanLoadDatasetFromMetadata 907 0 ⟨5, 120⟩ = false := by
  have h := memory_estimate_monotone_and_admission ⟨5, 120⟩ 2 5 (by decide) (by decide)
  exact ⟨h.1, h.2 907 0 (by decide)⟩

/-- C9: the admission-control estimated-usage counter starts at 0 and stays
non-negative under any sequence of AddEstimatedUsage, RemoveEstimatedUsage
and ResetEstimatedUsage calls with arbitrary arguments. -/
theorem estimatedUsage_never_negative (ops : List UsageOp) :
    0 ≤ ops.foldl applyUsageOp 0 := by
  have step : ∀ (l : List UsageOp) (u : Int), 0 ≤ u → 0 ≤ l.foldl applyUsageOp u := by
    intro l
    induction l with
    | nil => intro u hu; simpa using hu
    | cons op t ih =>
      intro u hu
      apply ih
      cases op <;>
        simp only [applyUsageOp, AddEstimatedUsage, RemoveEstimatedUsage,
          ResetEstimatedUsage] <;>
        omega
  exact step ops 0 le_rfl

/-- C10: the async query entry points reject trivially invalid input without
starting a query task: an empty dataset path or empty id list for the
single-time-step query; an empty path, empty id list, or start > end for the
time-range query. -/
theorem async_query_rejects_trivially_invalid (datasetPath : String)
    (trajectoryIds : List Int) (ts a b : Int) :
    (datasetPath.isEmpty = true ∨ trajectoryIds = [] →
      QuerySingleTimeStepAsync datasetPath trajectoryIds ts = (false, none)) ∧
    (datasetPath.isEmpty = true ∨ trajectoryIds = [] ∨ b < a →
      QueryTimeRangeAsync datasetPath trajectoryIds a b = (false, none)) := by
  constructor
  · intro h
    rcases h with h | h <;> simp [QuerySingleTimeStepAsync, h]
  · intro h
    rcases h with h | h | h <;> simp [QueryTimeRangeAsync, h]

/-- Witness for C10: an empty path rejects a single-step query; an inverted
range (start 5 > end 2) rejects a range query, with no task in either case. -/
theorem async_query_rejects_trivially_invalid_witness :
    QuerySingleTimeStepAsync "" [7] 3 = (false, none) ∧
    QueryTimeRangeAsync "ds" [7] 5 2 = (false, none) :=
  ⟨(async_query_rejects_trivially_invalid "" [7] 3 5 2).1 (Or.inl rfl),
   (async_query_rejects_trivially_invalid "ds" [7] 3 5 2).2 (Or.inr (Or.inr (by decide)))⟩

/-- Counterexample for C3: the claim says the returned id list is
deduplicated, but an explicit list naming trajectory 7 twice (and metadata
containing 7) yields [7, 7], which has duplicates. -/
theorem explicitList_not_deduplicated_counterexample :
    BuildTrajectoryIdList dupListParams exampleMeta [⟨7, 0, 9⟩] = [7, 7] ∧
    ¬ (BuildTrajectoryIdList dupListParams exampleMeta [⟨7, 0, 9⟩]).Nodup := by
  constructor
  · rfl
  · decide

/-- C3 (amended): for every ExplicitList selection, the returned list
contains only ids present in the trajectory metadata; ids absent from the
metadata are silently dropped (the result is exactly the caller's id list
filtered by metadata membership, preserving caller order and multiplicity -
duplicates in the caller's list are NOT removed). -/
theorem explicitList_ids_present (params : FTrajectoryLoadParams)
    (meta : FDatasetMetaBinary) (trajMetas : List FTrajectoryMetaBinary)
    (hstrat : params.selectionStrategy = .ExplicitList) :
    (∀ tid ∈ BuildTrajectoryIdList params meta trajMetas,
      ∃ tm ∈ trajMetas, tm.trajectoryId = tid) ∧
    BuildTrajectoryIdList params meta trajMetas =
      (params.trajectorySelections.map (·.trajectoryId)).filter
        (fun tid => trajMetas.any (fun tm => tm.trajectoryId == tid)) := by
  refine ⟨?_, by simp [BuildTrajectoryIdList, hstrat, explicitListIds]⟩
  intro tid htid
  simp only [BuildTrajectoryIdList, hstrat, explicitListIds, List.mem_filter,
    List.any_eq_true, beq_iff_eq] at htid
  obtain ⟨-, tm, htm, heq⟩ := htid
  exact ⟨tm, htm, heq⟩

/-- Witness for C3 (amended): requesting ids [7, 99] against metadata holding
only 7 and 8 returns [7] - the unknown id 99 is dropped without error. -/
theorem explicitList_ids_present_witness :
    (∀ tid ∈ BuildTrajectoryIdList
        { startTimeStep := -1, endTimeStep := -1, sampleRate := 1,
          selectionStrategy := .ExplicitList, numTrajectories := 0,
          trajectorySelections := [⟨7, -1, -1⟩, ⟨99, -1, -1⟩] }
        exampleMeta [⟨7, 0, 9⟩, ⟨8, 0, 9⟩],
      ∃ tm ∈ [(⟨7, 0, 9⟩ : FTrajectoryMetaBinary), ⟨8, 0, 9⟩], tm.trajectoryId = tid) ∧
    BuildTrajectoryIdList
        { startTimeStep := -1, endTimeStep := -1, sampleRate := 1,
          selectionStrategy := .ExplicitList, numTrajectories := 0,
          trajectorySelections := [⟨7, -1, -1⟩, ⟨99, -1, -1⟩] }
        exampleMeta [⟨7, 0, 9⟩, ⟨8, 0, 9⟩] = [7] := by
  have h := explicitList_ids_present
    { startTimeStep := -1, endTimeStep := -1, sampleRate := 1,
      selectionStrategy := .ExplicitList, numTrajectories := 0,
      trajectorySelections := [⟨7, -1, -1⟩, ⟨99, -1, -1⟩] }
    exampleMeta [⟨7, 0, 9⟩, ⟨8, 0, 9⟩] rfl
  exact ⟨h.1, by decide⟩

/-- C6: a FirstN selection with requested count k >= 0 over metadata with
distinct ids returns exactly min(k, total) ids - the ids of the first
min(k, total) records in metadata order - with no duplicates. -/
theorem firstN_selection_correct (params : FTrajectoryLoadParams)
    (meta : FDatasetMetaBinary) (trajMetas : List FTrajectoryMetaBinary)
    (hstrat : params.selectionStrategy = .FirstN)
    (hk : 0 ≤ params.numTrajectories)
    (hnd : (trajMetas.map (·.trajectoryId)).Nodup) :
    BuildTrajectoryIdList params meta trajMetas =
      (trajMetas.take (min params.numTrajectories (trajMetas.length : Int)).toNat).map
        (·.trajectoryId) ∧
    ((BuildTrajectoryIdList params meta trajMetas).length : Int) =
      min params.numTrajectories (trajMetas.length : Int) ∧
    (BuildTrajectoryIdList params meta trajMetas).Nodup := by
  have hdef : BuildTrajectoryIdList params meta trajMetas =
      (trajMetas.take (min params.numTrajectories (trajMetas.length : Int)).toNat).map
        (·.trajectoryId) := by
    simp [BuildTrajectoryIdList, hstrat, firstNIds]
  refine ⟨hdef, ?_, ?_⟩
  · rw [hdef]
    simp only [List.length_map, List.length_take]
    omega
  · rw [hdef]
    have hsub : ((trajMetas.take
        (min params.numTrajectories (trajMetas.length : Int)).toNat).map
          (·.trajectoryId)).Sublist (trajMetas.map (·.trajectoryId)) :=
      (List.take_sublist _ _).map _
    exact hnd.sublist hsub

/-- Witness for C6: requesting the first 2 of 3 metadata records returns the
first two ids [7, 8]. -/
theorem firstN_selection_correct_witness :
    BuildTrajectoryIdList
        { startTimeStep := -1, endTimeStep := -1, sampleRate := 1,
          selectionStrategy := .FirstN, numTrajectories := 2,
          trajectorySelections := [] }
        exampleMeta [⟨7, 0, 9⟩, ⟨8, 0, 9⟩, ⟨9, 0, 9⟩] =
      ([(⟨7, 0, 9⟩ : FTrajectoryMetaBinary), ⟨8, 0, 9⟩, ⟨9, 0, 9⟩].take
        (min 2 (3 : Int)).toNat).map (·.trajectoryId) ∧
    ((BuildTrajectoryIdList
        { startTimeStep := -1, endTimeStep := -1, sampleRate := 1,
          selectionStrategy := .FirstN, numTrajectories := 2,
          trajectorySelections := [] }
        exampleMeta [⟨7, 0, 9⟩, ⟨8, 0, 9⟩, ⟨9, 0, 9⟩]).length : Int) = min 2 (3 : Int) ∧
    (BuildTrajectoryIdList
        { startTimeStep := -1, endTimeStep := -1, sampleRate := 1,
          selectionStrategy := .FirstN, numTrajectories := 2,
          trajectorySelections := [] }
        exampleMeta [⟨7, 0, 9⟩, ⟨8, 0, 9⟩, ⟨9, 0, 9⟩]).Nodup :=
  firstN_selection_correct _ exampleMeta _ rfl (by decide) (by decide)

/-! ## Theorems: C2, C8 -/

/-- Counterexample for C2: a load call with a degenerate time range (start 5,
end 5, so start >= end) does not fail with a validation error -
LoadTrajectoriesSync performs no parameter validation at all and reports
success with an empty error message. -/
theorem degenerate_range_sync_load_succeeds_counterexample :
    (LoadTrajectoriesSync degenerateRangeFS degenerateRangeParams).bSuccess = true ∧
    (LoadTrajectoriesSync degenerateRangeFS degenerateRangeParams).errorMessage = "" := by
  constructor <;> rfl

/-- C2 (amended): ValidateLoadParams - the validation used by the async load
path - rejects every call whose resolved time range is degenerate, whose
sample rate is below 1, or whose selection resolves no trajectory: it reports
failure with a non-empty message, performs no shard-file read (only the two
dataset metadata files may have been read, to resolve defaults and the
selection), and LoadTrajectoriesAsync then refuses to start a load task.
LoadTrajectoriesSync itself performs no such validation. -/
theorem validate_rejects_invalid_params (fs : DatasetFS)
    (params : FTrajectoryLoadParams) (available : Int) (m : FDatasetMetaBinary)
    (tms : List FTrajectoryMetaBinary) (hm : fs.meta = some m)
    (htm : fs.trajMeta = some tms)
    (hinvalid : resolvedEndTime m params ≤ resolvedStartTime m params ∨
      params.sampleRate < 1 ∨ BuildTrajectoryIdList params m tms = []) :
    (ValidateLoadParams fs params available).1.bCanLoad = false ∧
    (ValidateLoadParams fs params available).1.message ≠ "" ∧
    (∀ k : Int, DiskRead.shard k ∉ (ValidateLoadParams fs params available).2) ∧
    LoadTrajectoriesAsync fs params false available = (false, false) := by
  have hval : (ValidateLoadParams fs params available).1.bCanLoad = false ∧
      (ValidateLoadParams fs params available).1.message ≠ "" ∧
      ∀ k : Int, DiskRead.shard k ∉ (ValidateLoadParams fs params available).2 := by
    simp only [ValidateLoadParams, hm, htm]
    split_ifs with h1 h2 h3 h4 h5 h6 h7 h8
    · exact ⟨rfl, by decide, by simp [vfail]⟩
    · exact ⟨rfl, by decide, by simp [vfail]⟩
    · exact ⟨rfl, by decide, by simp [vfail]⟩
    · exact ⟨rfl, by decide, by simp [vfail]⟩
    · exact ⟨rfl, by decide, by simp [vfail]⟩
    · exact ⟨rfl, by decide, by simp [vfail]⟩
    · exact ⟨rfl, by decide, by simp [vfail]⟩
    · exact ⟨rfl, (by decide : ("Insufficient memory" : String) ≠ ""), by simp⟩
    · exfalso
      rcases hinvalid with h | h | h
      · exact h5 h
      · exact h6 h
      · exact h7 (by simp [h])
  refine ⟨hval.1, hval.2.1, hval.2.2, ?_⟩
  simp [LoadTrajectoriesAsync, hval.1]

/-- Witness for C2 (amended): the degenerate range start = end = 5 is
rejected by validation with a message, without any shard read, and the async
entry point refuses to start. -/
theorem validate_rejects_invalid_params_witness :
    (ValidateLoadParams degenerateRangeFS degenerateRangeParams 1000000).1.bCanLoad = false ∧
    (ValidateLoadParams degenerateRangeFS degenerateRangeParams 1000000).1.message ≠ "" ∧
    (∀ k : Int,
      DiskRead.shard k ∉ (ValidateLoadParams degenerateRangeFS degenerateRangeParams 1000000).2) ∧
    LoadTrajectoriesAsync degenerateRangeFS degenerateRangeParams false 1000000 =
      (false, false) :=
  validate_rejects_invalid_params degenerateRangeFS degenerateRangeParams 1000000
    exampleMeta [⟨7, 0, 9⟩] rfl rfl (Or.inl (by decide))

/-- C8: a load call using FirstN selection with NumTrajectories = 0 (over
readable dataset metadata) resolves an empty trajectory-id list and returns
success = false with the "No trajectories to load" message. -/
theorem firstN_zero_load_fails (fs : DatasetFS) (params : FTrajectoryLoadParams)
    (m : FDatasetMetaBinary) (tms : List FTrajectoryMetaBinary)
    (hm : fs.meta = some m) (htm : fs.trajMeta = some tms)
    (hstrat : params.selectionStrategy = .FirstN)
    (hzero : params.numTrajectories = 0) :
    (LoadTrajectoriesSync fs params).bSuccess = false ∧
    (LoadTrajectoriesSync fs params).errorMessage = "No trajectories to load" := by
  have hmin : (min params.numTrajectories (tms.length : Int)).toNat = 0 := by
    rw [hzero]; omega
  have hids : BuildTrajectoryIdList params m tms = [] := by
    simp [BuildTrajectoryIdList, hstrat, firstNIds, hmin]
  constructor <;>
    simp [LoadTrajectoriesSync, LoadTrajectoriesInternalWithOrder, hm, htm, hids,
      loadFailure]

/-- Witness for C8: FirstN with NumTrajectories = 0 over the concrete dataset
with one trajectory fails with the "No trajectories to load" message. -/
theorem firstN_zero_load_fails_witness :
    (LoadTrajectoriesSync degenerateRangeFS
      { startTimeStep := -1, endTimeStep := -1, sampleRate := 1,
        selectionStrategy := .FirstN, numTrajectories := 0,
        trajectorySelections := [] }).bSuccess = false ∧
    (LoadTrajectoriesSync degenerateRangeFS
      { startTimeStep := -1, endTimeStep := -1, sampleRate := 1,
        selectionStrategy := .FirstN, numTrajectories := 0,
        trajectorySelections := [] }).errorMessage = "No trajectories to load" :=
  firstN_zero_load_fails degenerateRangeFS _ exampleMeta [⟨7, 0, 9⟩] rfl rfl rfl rfl

/-! ## C1: the chronological merge invariant -/

/-- A member of getLast? is a member of the list. -/
theorem mem_of_getLast?_mem {α : Type} {l : List α} {x : α} (h : x ∈ l.getLast?) : x ∈ l := by
  obtain ⟨hne, rfl⟩ := List.mem_getLast?_eq_getLast h
  exact List.getLast_mem hne

/-- Slot i of the parallel result array holds shard i's output exactly when
some worker in the completion order processed slot i - independently of where
in the order it was processed. -/
theorem fillSlotsFun_apply {β : Type} (f : Nat → β) (order : List Nat) (j : Nat) :
    fillSlotsFun f order j = if j ∈ order then some (f j) else none := by
  have general : ∀ (l : List Nat) (init : Nat → Option β),
      (l.foldl (fun slots i => Function.update slots i (some (f i))) init) j =
        if j ∈ l then some (f j) else init j := by
    intro l
    induction l with
    | nil => intro init; simp
    | cons i t ih =>
      intro init
      simp only [List.foldl_cons, ih]
      by_cases hjt : j ∈ t
      · simp [hjt]
      · by_cases hji : j = i
        · subst hji
          simp [hjt, Function.update_same]
        · simp [hjt, hji, Function.update_noteq hji]
  simpa [fillSlotsFun] using general order (fun _ => none)

/-- In an association list with distinct keys, find? by key returns exactly
the member with that key. -/
theorem find_key_eq {β : Type} (l : List (Int × β)) (hnd : (l.map Prod.fst).Nodup)
    (e : Int × β) (he : e ∈ l) : l.find? (fun x => x.1 == e.1) = some e := by
  induction l with
  | nil => cases he
  | cons a t ih =>
    simp only [List.map_cons, List.nodup_cons] at hnd
    rcases List.mem_cons.mp he with rfl | het
    · exact List.find?_cons_of_pos _ (by simp)
    · have hne : a.1 ≠ e.1 := by
        intro h
        exact hnd.1 (h ▸ List.mem_map.mpr ⟨e, het, rfl⟩)
      rw [List.find?_cons_of_neg _ (by simp [hne])]
      exact ih hnd.2 het

/-- clampInt stays within [lo, hi] whenever lo <= hi. -/
theorem clampInt_bounds (x lo hi : Int) (h : lo ≤ hi) :
    lo ≤ clampInt x lo hi ∧ clampInt x lo hi ≤ hi := by
  unfold clampInt
  split_ifs <;> omega

/-- A strictly monotone map over range n is pairwise increasing. -/
theorem pairwise_lt_map_range (n : Nat) (g : Nat → Int)
    (hg : ∀ i j : Nat, i < j → g i < g j) :
    List.Pairwise (· < ·) ((List.range n).map g) :=
  List.pairwise_map.mpr ((List.pairwise_lt_range n).imp (fun h => hg _ _ h))

/-- The fast path's output (a window [ls, le) of slots copied in one memcpy)
carries strictly increasing times bounded by the shard interval. -/
theorem fastPathSamples_bounds (shardStart size ls le : Int)
    (positions : List StoredSample) (h0 : 0 ≤ ls) (h1 : le ≤ size) :
    List.Pairwise (· < ·) (((List.range (le - ls).toNat).map (fun (i : Nat) =>
        (shardStart + ls + (i : Int), positions.getD (ls + (i : Int)).toNat none))).map
      Prod.fst) ∧
    ∀ pr ∈ (List.range (le - ls).toNat).map (fun (i : Nat) =>
        (shardStart + ls + (i : Int), positions.getD (ls + (i : Int)).toNat none)),
      shardStart ≤ pr.1 ∧ pr.1 ≤ shardStart + size - 1 := by
  constructor
  · rw [List.map_map]
    refine pairwise_lt_map_range _ _ (fun i j hij => ?_)
    simp only [Function.comp]
    omega
  · intro pr hpr
    obtain ⟨i, hi, rfl⟩ := List.mem_map.mp hpr
    rw [List.mem_range] at hi
    have : (i : Int) < le - ls := by omega
    dsimp only
    constructor <;> omega

/-- The slow path's output (every sampleRate-th slot of the window, NaN slots
filtered out) carries strictly increasing times bounded by the shard
interval. -/
theorem slowPathSamples_bounds (shardStart size ls le rate : Int)
    (positions : List StoredSample) (h0 : 0 ≤ ls) (h1 : le ≤ size)
    (h2 : ls < le) (hrate : 1 ≤ rate) :
    List.Pairwise (· < ·) ((((List.range ((le - ls + rate - 1).tdiv rate).toNat).map
        (fun (i : Nat) => (shardStart + (ls + (i : Int) * rate),
          positions.getD (ls + (i : Int) * rate).toNat none))).filter
        (fun pr => pr.2.isSome)).map Prod.fst) ∧
    ∀ pr ∈ ((List.range ((le - ls + rate - 1).tdiv rate).toNat).map
        (fun (i : Nat) => (shardStart + (ls + (i : Int) * rate),
          positions.getD (ls + (i : Int) * rate).toNat none))).filter
        (fun pr => pr.2.isSome),
      shardStart ≤ pr.1 ∧ pr.1 ≤ shardStart + size - 1 := by
  have hcount : ((le - ls + rate - 1).tdiv rate) * rate ≤ le - ls + rate - 1 := by
    rw [Int.tdiv_eq_ediv (by omega) (by omega)]
    exact Int.ediv_mul_le _ (by omega)
  have hcnonneg : 0 ≤ (le - ls + rate - 1).tdiv rate := by
    rw [Int.tdiv_eq_ediv (by omega) (by omega)]
    exact Int.ediv_nonneg (by omega) (by omega)
  have hmem : ∀ pr ∈ (List.range ((le - ls + rate - 1).tdiv rate).toNat).map
      (fun (i : Nat) => (shardStart + (ls + (i : Int) * rate),
        positions.getD (ls + (i : Int) * rate).toNat none)),
      shardStart ≤ pr.1 ∧ pr.1 ≤ shardStart + size - 1 := by
    intro pr hpr
    obtain ⟨i, hi, rfl⟩ := List.mem_map.mp hpr
    rw [List.mem_range] at hi
    have hiI : (i : Int) < (le - ls + rate - 1).tdiv rate := by omega
    have h3 : ((i : Int) + 1) * rate ≤ ((le - ls + rate - 1).tdiv rate) * rate :=
      mul_le_mul_of_nonneg_right (by omega) (by omega)
    have hexp : ((i : Int) + 1) * rate = (i : Int) * rate + rate := by ring
    rw [hexp] at h3
    have h5 : 0 ≤ (i : Int) * rate := mul_nonneg (by omega) (by omega)
    dsimp only
    constructor <;> omega
  constructor
  · have hpw : List.Pairwise (· < ·)
        (((List.range ((le - ls + rate - 1).tdiv rate).toNat).map
          (fun (i : Nat) => (shardStart + (ls + (i : Int) * rate),
            positions.getD (ls + (i : Int) * rate).toNat none))).map Prod.fst) := by
      rw [List.map_map]
      refine pairwise_lt_map_range _ _ (fun i j hij => ?_)
      simp only [Function.comp]
      have hij2 : (i : Int) < (j : Int) := by omega
      have := mul_lt_mul_of_pos_right hij2 (show (0 : Int) < rate by omega)
      omega
    exact hpw.sublist ((List.filter_sublist _).map Prod.fst)
  · intro pr hpr
    exact hmem pr (List.mem_filter.mp hpr).1

/-- The samples one entry contributes carry strictly increasing time steps,
all inside the shard's interval [shardStart, shardStart + size - 1]. -/
theorem extractEntrySamples_bounds (params : FTrajectoryLoadParams)
    (shardStart size : Int) (entry : ShardEntry)
    (hrate : 1 ≤ params.sampleRate) (hsz : 0 ≤ size) :
    List.Pairwise (· < ·)
      ((extractEntrySamples params shardStart size entry).map Prod.fst) ∧
    ∀ pr ∈ extractEntrySamples params shardStart size entry,
      shardStart ≤ pr.1 ∧ pr.1 ≤ shardStart + size - 1 := by
  have h0 : 0 ≤ entryLoadStart params shardStart size entry := by
    unfold entryLoadStart
    exact (clampInt_bounds _ 0 size hsz).1
  have h1 : entryLoadEnd params shardStart size entry ≤ size := by
    unfold entryLoadEnd
    exact (clampInt_bounds _ 0 size hsz).2
  simp only [extractEntrySamples]
  split_ifs with hempty hone
  · simp
  · exact fastPathSamples_bounds shardStart size _ _ entry.positions h0 h1
  · exact slowPathSamples_bounds shardStart size _ _ params.sampleRate entry.positions
      h0 h1 (by omega) hrate

/-- The samples one shard contributes for one trajectory carry strictly
increasing time steps inside the shard's interval, provided the shard header's
interval size matches the one the discovery range was computed from. -/
theorem extractShardTrajectory_bounds (params : FTrajectoryLoadParams)
    (info : FShardInfo) (file : ShardFile) (trajMetas : List FTrajectoryMetaBinary)
    (tid : Int) (hrate : 1 ≤ params.sampleRate)
    (hsz : 0 ≤ file.header.timeStepIntervalSize)
    (hend : info.endTimeStep = info.startTimeStep + file.header.timeStepIntervalSize - 1) :
    List.Pairwise (· < ·)
      ((extractShardTrajectory params info file trajMetas tid).map Prod.fst) ∧
    ∀ pr ∈ extractShardTrajectory params info file trajMetas tid,
      info.startTimeStep ≤ pr.1 ∧ pr.1 ≤ info.endTimeStep := by
  unfold extractShardTrajectory
  cases findTrajMeta trajMetas tid with
  | none => simp
  | some tm =>
    simp only
    split_ifs with hskip
    · simp
    · cases findEntryForTrajectory file tid with
      | none => simp
      | some entry =>
        simp only
        have h := extractEntrySamples_bounds params info.startTimeStep
          file.header.timeStepIntervalSize entry hrate hsz
        exact ⟨h.1, fun pr hpr => by
          have := h.2 pr hpr
          omega⟩

/-- resLookup on a cons. -/
theorem resLookup_cons (tid : Int) (pr : Int × List (Int × StoredSample))
    (rest : List (Int × List (Int × StoredSample))) :
    resLookup tid (pr :: rest) = if pr.1 = tid then pr.2 else resLookup tid rest := by
  unfold resLookup
  by_cases h : pr.1 = tid
  · rw [List.find?_cons_of_pos _ (by simp [h]), if_pos h]
    rfl
  · rw [List.find?_cons_of_neg _ (by simp [h]), if_neg h]

/-- resLookup misses when the key is absent. -/
theorem resLookup_not_mem (tid : Int) (res : List (Int × List (Int × StoredSample)))
    (h : tid ∉ res.map Prod.fst) : resLookup tid res = [] := by
  have hfind : res.find? (fun pr => pr.1 == tid) = none := by
    rw [List.find?_eq_none]
    intro x hx
    simp only [beq_iff_eq]
    intro hq
    exact h (List.mem_map.mpr ⟨x, hx, hq⟩)
  simp [resLookup, hfind]

/-- The keys of a shard result are a sublist of the requested id list. -/
theorem extract_keys_sublist {g : Int → List (Int × StoredSample)} (l : List Int) :
    ((l.filterMap (fun t => if (g t).isEmpty then none else some (t, g t))).map
      Prod.fst).Sublist l := by
  induction l with
  | nil => simp
  | cons a t ih =>
    rw [List.filterMap_cons]
    by_cases hga : (g a).isEmpty
    · rw [if_pos hga]
      exact ih.cons a
    · rw [if_neg hga, List.map_cons]
      exact ih.cons₂ a

/-- The keys of one shard's result map are distinct. -/
theorem extractShardResult_keys_nodup (params : FTrajectoryLoadParams) (ids : List Int)
    (trajMetas : List FTrajectoryMetaBinary) (info : FShardInfo) (file : ShardFile) :
    ((extractShardResult params ids trajMetas info file).map Prod.fst).Nodup :=
  (List.nodup_dedup ids).sublist (extract_keys_sublist ids.dedup)

/-- Looking a requested trajectory up in a shard's result map returns exactly
that trajectory's extraction output. -/
theorem resLookup_extract (l : List Int) (g : Int → List (Int × StoredSample))
    (hnd : l.Nodup) (tid : Int) (htid : tid ∈ l) :
    resLookup tid (l.filterMap (fun t =>
      if (g t).isEmpty then none else some (t, g t))) = g tid := by
  induction l with
  | nil => cases htid
  | cons a t ih =>
    rw [List.nodup_cons] at hnd
    rw [List.filterMap_cons]
    by_cases hga : (g a).isEmpty
    · rw [if_pos hga]
      rcases List.mem_cons.mp htid with rfl | hmem
      · rw [resLookup_not_mem _ _ (fun hk => hnd.1 ((extract_keys_sublist t).subset hk))]
        exact (List.isEmpty_iff.mp hga).symm
      · exact ih hnd.2 hmem
    · rw [if_neg hga, resLookup_cons]
      rcases List.mem_cons.mp htid with rfl | hmem
      · rw [if_pos rfl]
      · rw [if_neg (fun hk => hnd.1 (by
          have hk2 : a = tid := hk
          rw [hk2]
          exact hmem))]
        exact ih hnd.2 hmem

/-- resLookup on one shard's result map for a requested id. -/
theorem resLookup_extractShardResult (params : FTrajectoryLoadParams) (ids : List Int)
    (trajMetas : List FTrajectoryMetaBinary) (info : FShardInfo) (file : ShardFile)
    (tid : Int) (htid : tid ∈ ids) :
    resLookup tid (extractShardResult params ids trajMetas info file) =
      extractShardTrajectory params info file trajMetas tid :=
  resLookup_extract ids.dedup _ (List.nodup_dedup ids) tid (List.mem_dedup.mpr htid)

/-- Trajectory presence, phrased through the id projection. -/
theorem exists_id_iff_mem_map (trajs : List FLoadedTrajectory) (tid : Int) :
    (∃ tr ∈ trajs, tr.trajectoryId = tid) ↔ tid ∈ trajs.map (·.trajectoryId) := by
  rw [List.mem_map]

/-- One merge step preserves every trajectory id. -/
theorem appendStep_ids (trajs : List FLoadedTrajectory)
    (pr : Int × List (Int × StoredSample)) :
    (trajs.map (fun tr => if tr.trajectoryId == pr.1
        then { tr with samples := tr.samples ++ pr.2 } else tr)).map (·.trajectoryId) =
      trajs.map (·.trajectoryId) := by
  rw [List.map_map]
  refine List.map_congr_left (fun tr _ => ?_)
  by_cases h : tr.trajectoryId == pr.1 <;> simp [h, Function.comp]

/-- find? by trajectory id commutes with mapping an id-preserving function. -/
theorem find_map_id_pred (trajs : List FLoadedTrajectory)
    (g : FLoadedTrajectory → FLoadedTrajectory)
    (hg : ∀ tr, (g tr).trajectoryId = tr.trajectoryId) (tid : Int) :
    (trajs.map g).find? (fun tr => tr.trajectoryId == tid) =
      (trajs.find? (fun tr => tr.trajectoryId == tid)).map g := by
  induction trajs with
  | nil => rfl
  | cons a t ih =>
    by_cases ha : (a.trajectoryId == tid) = true
    · have hga : ((g a).trajectoryId == tid) = true := by rw [hg]; exact ha
      rw [List.map_cons,
        @List.find?_cons_of_pos _ (fun tr => tr.trajectoryId == tid) (g a) (t.map g) hga,
        @List.find?_cons_of_pos _ (fun tr => tr.trajectoryId == tid) a t ha]
      rfl
    · have hga : ¬(((g a).trajectoryId == tid) = true) := by rw [hg]; exact ha
      rw [List.map_cons,
        @List.find?_cons_of_neg _ (fun tr => tr.trajectoryId == tid) (g a) (t.map g) hga,
        @List.find?_cons_of_neg _ (fun tr => tr.trajectoryId == tid) a t ha]
      exact ih

/-- One merge step appends the shard's samples to the targeted trajectory
when it is present in the map. -/
theorem samplesIn_appendStep_eq (trajs : List FLoadedTrajectory)
    (pr : Int × List (Int × StoredSample)) (tid : Int)
    (hpres : ∃ tr ∈ trajs, tr.trajectoryId = tid) (hkey : pr.1 = tid) :
    samplesIn (trajs.map (fun tr => if tr.trajectoryId == pr.1
        then { tr with samples := tr.samples ++ pr.2 } else tr)) tid =
      samplesIn trajs tid ++ pr.2 := by
  have hg : ∀ tr : FLoadedTrajectory, ((fun tr => if tr.trajectoryId == pr.1
      then { tr with samples := tr.samples ++ pr.2 } else tr) tr).trajectoryId =
      tr.trajectoryId := by
    intro tr
    dsimp only
    by_cases h : (tr.trajectoryId == pr.1) = true
    · rw [if_pos h]
    · rw [if_neg h]
  unfold samplesIn
  rw [find_map_id_pred _ _ hg]
  cases hfind : trajs.find? (fun tr => tr.trajectoryId == tid) with
  | none =>
    exfalso
    obtain ⟨tr, htr, hq⟩ := hpres
    rw [List.find?_eq_none] at hfind
    exact hfind tr htr (by simp [hq])
  | some tr =>
    have htid : tr.trajectoryId = tid := by simpa using List.find?_some hfind
    simp [htid, hkey]

/-- One merge step targeting a different id leaves a trajectory's samples
unchanged. -/
theorem samplesIn_appendStep_skip (trajs : List FLoadedTrajectory)
    (pr : Int × List (Int × StoredSample)) (tid : Int) (hkey : pr.1 ≠ tid) :
    samplesIn (trajs.map (fun tr => if tr.trajectoryId == pr.1
        then { tr with samples := tr.samples ++ pr.2 } else tr)) tid =
      samplesIn trajs tid := by
  have hg : ∀ tr : FLoadedTrajectory, ((fun tr => if tr.trajectoryId == pr.1
      then { tr with samples := tr.samples ++ pr.2 } else tr) tr).trajectoryId =
      tr.trajectoryId := by
    intro tr
    dsimp only
    by_cases h : (tr.trajectoryId == pr.1) = true
    · rw [if_pos h]
    · rw [if_neg h]
  unfold samplesIn
  rw [find_map_id_pred _ _ hg]
  cases hfind : trajs.find? (fun tr => tr.trajectoryId == tid) with
  | none => rfl
  | some tr =>
    have htid : tr.trajectoryId = tid := by simpa using List.find?_some hfind
    have hne : ¬((tr.trajectoryId == pr.1) = true) := by
      simp only [beq_iff_eq, htid]
      exact fun h => hkey h.symm
    have hne2 : ¬(tr.trajectoryId = pr.1) := by simpa using hne
    simp [hne2]

/-- Merging one shard's whole result map preserves every trajectory id. -/
theorem appendShardSamples_ids (res : List (Int × List (Int × StoredSample)))
    (trajs : List FLoadedTrajectory) :
    (appendShardSamples trajs res).map (·.trajectoryId) = trajs.map (·.trajectoryId) := by
  induction res generalizing trajs with
  | nil => rfl
  | cons pr rest ih =>
    have hstep : appendShardSamples trajs (pr :: rest) =
        appendShardSamples (trajs.map (fun tr => if tr.trajectoryId == pr.1
          then { tr with samples := tr.samples ++ pr.2 } else tr)) rest := rfl
    rw [hstep, ih, appendStep_ids]

/-- Merging one shard's result map appends exactly the shard's samples for a
present trajectory (the result map has distinct keys). -/
theorem samplesIn_appendShardSamples (res : List (Int × List (Int × StoredSample)))
    (trajs : List FLoadedTrajectory) (tid : Int)
    (hpres : ∃ tr ∈ trajs, tr.trajectoryId = tid)
    (hnd : (res.map Prod.fst).Nodup) :
    samplesIn (appendShardSamples trajs res) tid =
      samplesIn trajs tid ++ resLookup tid res := by
  induction res generalizing trajs with
  | nil => simp [appendShardSamples, resLookup]
  | cons pr rest ih =>
    rw [List.map_cons, List.nodup_cons] at hnd
    have hstep : appendShardSamples trajs (pr :: rest) =
        appendShardSamples (trajs.map (fun tr => if tr.trajectoryId == pr.1
          then { tr with samples := tr.samples ++ pr.2 } else tr)) rest := rfl
    have hpres' : ∃ tr ∈ trajs.map (fun tr => if tr.trajectoryId == pr.1
        then { tr with samples := tr.samples ++ pr.2 } else tr), tr.trajectoryId = tid := by
      rw [exists_id_iff_mem_map, appendStep_ids]
      exact (exists_id_iff_mem_map trajs tid).mp hpres
    rw [hstep, ih _ hpres' hnd.2, resLookup_cons]
    by_cases hkey : pr.1 = tid
    · rw [if_pos hkey, samplesIn_appendStep_eq trajs pr tid hpres hkey,
        resLookup_not_mem tid rest (hkey ▸ hnd.1), List.append_nil]
    · rw [if_neg hkey, samplesIn_appendStep_skip trajs pr tid hkey]

/-- The sequential merge phase preserves every trajectory id. -/
theorem mergeShardResults_ids (results : List (List (Int × List (Int × StoredSample))))
    (trajs : List FLoadedTrajectory) :
    (mergeShardResults trajs results).map (·.trajectoryId) = trajs.map (·.trajectoryId) := by
  induction results generalizing trajs with
  | nil => rfl
  | cons r rest ih =>
    have hstep : mergeShardResults trajs (r :: rest) =
        mergeShardResults (appendShardSamples trajs r) rest := rfl
    rw [hstep, ih, appendShardSamples_ids]

/-- After the sequential merge, a present trajectory's sample list is the
concatenation of its per-shard sample lists, in merge order. -/
theorem samplesIn_mergeShardResults (results : List (List (Int × List (Int × StoredSample))))
    (trajs : List FLoadedTrajectory) (tid : Int)
    (hpres : ∃ tr ∈ trajs, tr.trajectoryId = tid)
    (hnd : ∀ r ∈ results, (r.map Prod.fst).Nodup) :
    samplesIn (mergeShardResults trajs results) tid =
      samplesIn trajs tid ++ (results.map (resLookup tid)).flatten := by
  induction results generalizing trajs with
  | nil => simp [mergeShardResults]
  | cons r rest ih =>
    have hstep : mergeShardResults trajs (r :: rest) =
        mergeShardResults (appendShardSamples trajs r) rest := rfl
    have hpres' : ∃ tr ∈ appendShardSamples trajs r, tr.trajectoryId = tid := by
      rw [exists_id_iff_mem_map, appendShardSamples_ids]
      exact (exists_id_iff_mem_map trajs tid).mp hpres
    rw [hstep, ih _ hpres' (fun r' h => hnd r' (List.mem_cons_of_mem _ h)),
      samplesIn_appendShardSamples r trajs tid hpres (hnd r (List.mem_cons_self _ _)),
      List.map_cons, List.flatten_cons, List.append_assoc]

/-- A trajectory id with no map entry has no samples. -/
theorem samplesIn_eq_nil_of_absent (trajs : List FLoadedTrajectory) (tid : Int)
    (h : tid ∉ trajs.map (·.trajectoryId)) : samplesIn trajs tid = [] := by
  have hfind : trajs.find? (fun tr => tr.trajectoryId == tid) = none := by
    rw [List.find?_eq_none]
    intro tr htr
    simp only [beq_iff_eq]
    intro hq
    exact h (List.mem_map.mpr ⟨tr, htr, hq⟩)
  simp [samplesIn, hfind]

/-- Membership in a TMap::Add style upsert. -/
theorem upsertTrajectory_mem (trajs : List FLoadedTrajectory) (t tr : FLoadedTrajectory)
    (h : tr ∈ upsertTrajectory trajs t) : tr ∈ trajs ∨ tr = t := by
  unfold upsertTrajectory at h
  split_ifs at h with hc
  · obtain ⟨u, hu, hif⟩ := List.mem_map.mp h
    by_cases hq : (u.trajectoryId == t.trajectoryId) = true
    · rw [if_pos hq] at hif
      exact Or.inr hif.symm
    · rw [if_neg hq] at hif
      exact Or.inl (hif ▸ hu)
  · rcases List.mem_append.mp h with h1 | h1
    · exact Or.inl h1
    · exact Or.inr (List.mem_singleton.mp h1)

/-- Every trajectory the map is initialised with has an empty sample list. -/
theorem initLoadedTrajectories_samples_nil (ids : List Int)
    (trajMetas : List FTrajectoryMetaBinary) (tr : FLoadedTrajectory)
    (h : tr ∈ initLoadedTrajectories ids trajMetas) : tr.samples = [] := by
  have general : ∀ (l : List Int) (acc : List FLoadedTrajectory),
      (∀ u ∈ acc, u.samples = []) →
      ∀ u ∈ l.foldl (fun acc tid => match findTrajMeta trajMetas tid with
        | none => acc
        | some tm => upsertTrajectory acc ⟨tid, tm.startTimeStep, tm.endTimeStep, []⟩) acc,
        u.samples = [] := by
    intro l
    induction l with
    | nil =>
      intro acc hacc u hu
      exact hacc u hu
    | cons a t ih =>
      intro acc hacc u hu
      rw [List.foldl_cons] at hu
      refine ih _ ?_ u hu
      cases hf : findTrajMeta trajMetas a with
      | none => exact hacc
      | some tm =>
        intro v hv
        rcases upsertTrajectory_mem acc ⟨a, tm.startTimeStep, tm.endTimeStep, []⟩ v
            (show v ∈ upsertTrajectory acc ⟨a, tm.startTimeStep, tm.endTimeStep, []⟩ from hv)
          with h1 | h1
        · exact hacc v h1
        · rw [h1]
  exact general ids [] (by simp) tr h

/-- Right after initialisation every trajectory's sample list is empty. -/
theorem samplesIn_initLoadedTrajectories (ids : List Int)
    (trajMetas : List FTrajectoryMetaBinary) (tid : Int) :
    samplesIn (initLoadedTrajectories ids trajMetas) tid = [] := by
  unfold samplesIn
  cases hf : (initLoadedTrajectories ids trajMetas).find?
      (fun tr => tr.trajectoryId == tid) with
  | none => rfl
  | some tr =>
    have := initLoadedTrajectories_samples_nil ids trajMetas tr
      (List.mem_of_find?_eq_some hf)
    simp [this]

/-- The concatenation of blocks that are internally increasing and pairwise
separated has non-decreasing first components. -/
theorem chain'_le_flatten (L : List (List (Int × StoredSample)))
    (h1 : ∀ l ∈ L, List.Pairwise (· < ·) (l.map Prod.fst))
    (h2 : L.Pairwise (fun l1 l2 => ∀ x ∈ l1, ∀ y ∈ l2, x.1 < y.1)) :
    List.Chain' (· ≤ ·) (L.flatten.map Prod.fst) := by
  induction L with
  | nil => simp
  | cons l rest ih =>
    rw [List.flatten_cons, List.map_append, List.chain'_append]
    rw [List.pairwise_cons] at h2
    refine ⟨((h1 l (List.mem_cons_self _ _)).imp (fun h => le_of_lt h)).chain',
      ih (fun l' hl' => h1 l' (List.mem_cons_of_mem _ hl')) h2.2, ?_⟩
    intro x hx y hy
    have hxl : x ∈ l.map Prod.fst := mem_of_getLast?_mem hx
    have hyr : y ∈ rest.flatten.map Prod.fst := List.mem_of_mem_head? hy
    obtain ⟨px, hpx, rfl⟩ := List.mem_map.mp hxl
    obtain ⟨py, hpy, rfl⟩ := List.mem_map.mp hyr
    obtain ⟨l2, hl2, hpy2⟩ := List.mem_flatten.mp hpy
    exact le_of_lt (h2.1 l2 hl2 px hpx py hpy2)

/-- The discovery table's keys are the shard filename indices. -/
theorem shardInfoTable_keys (meta : FDatasetMetaBinary) (fs : DatasetFS) :
    (shardInfoTable meta fs).map Prod.fst = fs.shards.map Prod.fst := by
  unfold shardInfoTable
  rw [List.map_map]
  rfl

/-- A discovery table entry's shard info is computed from its header. -/
theorem shardInfoTable_info (meta : FDatasetMetaBinary) (fs : DatasetFS)
    (e : Int × FShardInfo × ShardFile) (he : e ∈ shardInfoTable meta fs) :
    e.2.1 = discoverShardInfo meta e.2.2.header := by
  unfold shardInfoTable at he
  obtain ⟨kv, _, heq⟩ := List.mem_map.mp he
  rw [← heq]

/-- With distinct filename indices, the relevant-shard keys are distinct. -/
theorem relevantShardKeys_nodup (meta : FDatasetMetaBinary) (fs : DatasetFS)
    (st en : Int) (hkeys : (fs.shards.map Prod.fst).Nodup) :
    (relevantShardKeys meta fs st en).Nodup := by
  have hsub : (relevantShardKeys meta fs st en).Sublist
      ((shardInfoTable meta fs).map Prod.fst) :=
    (List.filter_sublist _).map Prod.fst
  rw [shardInfoTable_keys] at hsub
  exact hkeys.sublist hsub

/-- The sorted relevant-shard keys are strictly increasing. -/
theorem sortedRelevantShardKeys_pairwise (meta : FDatasetMetaBinary) (fs : DatasetFS)
    (st en : Int) (hkeys : (fs.shards.map Prod.fst).Nodup) :
    List.Pairwise (· < ·) (sortedRelevantShardKeys meta fs st en) := by
  have hsorted : List.Sorted (· ≤ ·) (sortedRelevantShardKeys meta fs st en) :=
    List.sorted_insertionSort _ _
  have hnd : (sortedRelevantShardKeys meta fs st en).Nodup :=
    ((List.perm_insertionSort (· ≤ ·) (relevantShardKeys meta fs st en)).symm).nodup
      (relevantShardKeys_nodup meta fs st en hkeys)
  exact (List.Pairwise.and hsorted hnd).imp (fun h => lt_of_le_of_ne h.1 h.2)

/-- A relevant key resolves through ShardInfoTable.Find to its own table
entry. -/
theorem lookupShardByKey_of_relevant (meta : FDatasetMetaBinary) (fs : DatasetFS)
    (st en k : Int) (hkeys : (fs.shards.map Prod.fst).Nodup)
    (hk : k ∈ relevantShardKeys meta fs st en) :
    ∃ e ∈ relevantShardTable meta fs st en, e.1 = k ∧
      lookupShardByKey meta fs k = some e.2 := by
  obtain ⟨e, he, hek⟩ := List.mem_map.mp hk
  refine ⟨e, he, hek, ?_⟩
  unfold lookupShardByKey
  have hmem : e ∈ shardInfoTable meta fs := (List.mem_filter.mp he).1
  have hnd : ((shardInfoTable meta fs).map Prod.fst).Nodup := by
    rw [shardInfoTable_keys]
    exact hkeys
  rw [← hek, find_key_eq _ hnd e hmem]
  rfl

/-- The keys of any slot's result are distinct. -/
theorem extractShardAt_keys_nodup (meta : FDatasetMetaBinary) (fs : DatasetFS)
    (params : FTrajectoryLoadParams) (ids : List Int)
    (trajMetas : List FTrajectoryMetaBinary) (st en : Int) (i : Nat) :
    ((extractShardAt meta fs params ids trajMetas st en i).map Prod.fst).Nodup := by
  unfold extractShardAt
  cases (sortedRelevantShardKeys meta fs st en)[i]? with
  | none => simp
  | some k =>
    dsimp only
    cases lookupShardByKey meta fs k with
    | none => simp
    | some pr => exact extractShardResult_keys_nodup params ids trajMetas pr.1 pr.2

/-- A slot whose key resolves in the table extracts exactly that shard. -/
theorem extractShardAt_eq (meta : FDatasetMetaBinary) (fs : DatasetFS)
    (params : FTrajectoryLoadParams) (ids : List Int)
    (trajMetas : List FTrajectoryMetaBinary) (st en : Int) (i : Nat) (k : Int)
    (info : FShardInfo) (file : ShardFile)
    (hget : (sortedRelevantShardKeys meta fs st en)[i]? = some k)
    (hlook : lookupShardByKey meta fs k = some (info, file)) :
    extractShardAt meta fs params ids trajMetas st en i =
      extractShardResult params ids trajMetas info file := by
  unfold extractShardAt
  simp only [hget, hlook]

/-- Counterexample for C1: the two shards of swappedShardFS cover disjoint,
non-overlapping time ranges ([0,4] and [5,9]) and trajectory 7 has samples in
both, yet the loaded sample sequence is ordered [5..9, 0..4] - not
non-decreasing in time.  The merge sorts shards by filename index, which need
not agree with the header-derived time ranges. -/
theorem merge_order_counterexample :
    (discoverShardInfo exampleMeta swappedShardB.header).endTimeStep <
      (discoverShardInfo exampleMeta swappedShardA.header).startTimeStep ∧
    ((loadedSamplesFor (LoadTrajectoriesSync swappedShardFS fullRangeParams) 7).map
      Prod.fst = [5, 6, 7, 8, 9, 0, 1, 2, 3, 4]) ∧
    ¬ List.Chain' (· ≤ ·)
      ((loadedSamplesFor (LoadTrajectoriesSync swappedShardFS fullRangeParams) 7).map
        Prod.fst) := by
  have hlist : (loadedSamplesFor (LoadTrajectoriesSync swappedShardFS fullRangeParams) 7).map
      Prod.fst = [5, 6, 7, 8, 9, 0, 1, 2, 3, 4] := by decide
  refine ⟨by decide, hlist, ?_⟩
  rw [hlist]
  intro h
  simp [List.chain'_cons] at h

/-- C1 (amended): for every bulk load with a valid sample rate over a dataset
whose relevant shards cover disjoint, non-overlapping time ranges ordered
consistently with their filename indices (a smaller shard file index means an
earlier time range, as produced by the converter), whose shard headers carry
the dataset's interval size, and for every trajectory, the per-trajectory
sample sequence is ordered by non-decreasing (indeed increasing) time step
regardless of the order in which the parallel per-shard tasks complete:
every completion order covering all slots yields the same chronological
merge. -/
theorem merge_order_invariant (fs : DatasetFS) (params : FTrajectoryLoadParams)
    (order : List Nat) (tid : Int) (m : FDatasetMetaBinary)
    (hm : fs.meta = some m)
    (hrate : 1 ≤ params.sampleRate)
    (hkeys : (fs.shards.map Prod.fst).Nodup)
    (hhdr : ∀ e ∈ relevantShardTable m fs (resolvedStartTime m params)
        (resolvedEndTime m params),
      e.2.2.header.timeStepIntervalSize = m.timeStepIntervalSize)
    (hsize : 1 ≤ m.timeStepIntervalSize)
    (hord : ∀ e1 ∈ relevantShardTable m fs (resolvedStartTime m params)
        (resolvedEndTime m params),
      ∀ e2 ∈ relevantShardTable m fs (resolvedStartTime m params)
        (resolvedEndTime m params),
      e1.1 < e2.1 → e1.2.1.endTimeStep < e2.2.1.startTimeStep)
    (hcover : ∀ i, i < (sortedRelevantShardKeys m fs (resolvedStartTime m params)
        (resolvedEndTime m params)).length → i ∈ order) :
    List.Chain' (· ≤ ·)
      ((loadedSamplesFor (LoadTrajectoriesInternalWithOrder fs params order) tid).map
        Prod.fst) := by
  cases htm : fs.trajMeta with
  | none =>
    simp [loadedSamplesFor, LoadTrajectoriesInternalWithOrder, hm, htm, loadFailure,
      samplesIn]
  | some trajMetas =>
    by_cases hids : ((BuildTrajectoryIdList params m trajMetas).isEmpty = true)
    · simp [loadedSamplesFor, LoadTrajectoriesInternalWithOrder, hm, htm, hids,
        loadFailure, samplesIn]
    · have hB : (BuildTrajectoryIdList params m trajMetas).isEmpty = false := by
        simpa using hids
      simp only [loadedSamplesFor, LoadTrajectoriesInternalWithOrder, hm, htm, hB,
        Bool.false_eq_true, if_false]
      set st := resolvedStartTime m params with hst
      set en := resolvedEndTime m params with hen
      set ids := BuildTrajectoryIdList params m trajMetas with hidsl
      set sorted := sortedRelevantShardKeys m fs st en with hsortedl
      -- each slot was filled by some worker, so the post-parallel array holds
      -- exactly the per-shard extraction output in sorted-key order
      have hres : (List.range sorted.length).map (fun i =>
            (fillSlotsFun (extractShardAt m fs params ids trajMetas st en) order i).getD []) =
          (List.range sorted.length).map (extractShardAt m fs params ids trajMetas st en) := by
        refine List.map_congr_left (fun i hi => ?_)
        rw [List.mem_range] at hi
        rw [fillSlotsFun_apply, if_pos (hcover i hi)]
        rfl
      rw [hres]
      -- per-slot facts: each block is internally increasing, and bounded by
      -- its shard's discovered time range
      have hslot : ∀ i (hi : i < sorted.length),
          ∃ e ∈ relevantShardTable m fs st en, e.1 = sorted.get ⟨i, hi⟩ ∧
            extractShardAt m fs params ids trajMetas st en i =
              extractShardResult params ids trajMetas e.2.1 e.2.2 := by
        intro i hi
        have hget : (sortedRelevantShardKeys m fs st en)[i]? =
            some (sorted.get ⟨i, hi⟩) := by
          rw [← hsortedl, List.getElem?_eq_getElem hi]
          rfl
        have hkmem : sorted.get ⟨i, hi⟩ ∈ relevantShardKeys m fs st en := by
          have hmem : sorted.get ⟨i, hi⟩ ∈ sorted := List.get_mem sorted i hi
          exact (List.perm_insertionSort (· ≤ ·) (relevantShardKeys m fs st en)).mem_iff.mp
            hmem
        obtain ⟨e, he, hek, hlook⟩ :=
          lookupShardByKey_of_relevant m fs st en _ hkeys hkmem
        refine ⟨e, he, hek, ?_⟩
        exact extractShardAt_eq m fs params ids trajMetas st en i _ e.2.1 e.2.2 hget hlook
      have hfacts : ∀ i (hi : i < sorted.length),
          ∃ e ∈ relevantShardTable m fs st en, e.1 = sorted.get ⟨i, hi⟩ ∧
            List.Pairwise (· < ·)
              ((resLookup tid (extractShardAt m fs params ids trajMetas st en i)).map
                Prod.fst) ∧
            ∀ pr ∈ resLookup tid (extractShardAt m fs params ids trajMetas st en i),
              e.2.1.startTimeStep ≤ pr.1 ∧ pr.1 ≤ e.2.1.endTimeStep := by
        intro i hi
        obtain ⟨e, he, hek, hext⟩ := hslot i hi
        have hszhdr : 0 ≤ e.2.2.header.timeStepIntervalSize := by
          rw [hhdr e he]
          omega
        have hinfo : e.2.1 = discoverShardInfo m e.2.2.header :=
          shardInfoTable_info m fs e (List.mem_filter.mp he).1
        have hend : e.2.1.endTimeStep =
            e.2.1.startTimeStep + e.2.2.header.timeStepIntervalSize - 1 := by
          rw [hhdr e he, hinfo]
          simp [discoverShardInfo]
        refine ⟨e, he, hek, ?_, ?_⟩
        · rw [hext]
          by_cases htin : tid ∈ ids
          · rw [resLookup_extractShardResult params ids trajMetas e.2.1 e.2.2 tid htin]
            exact (extractShardTrajectory_bounds params e.2.1 e.2.2 trajMetas tid hrate
              hszhdr hend).1
          · rw [resLookup_not_mem tid (extractShardResult params ids trajMetas e.2.1 e.2.2)
              (fun hk =>
                htin (List.mem_dedup.mp ((extract_keys_sublist ids.dedup).subset hk)))]
            simp
        · rw [hext]
          by_cases htin : tid ∈ ids
          · rw [resLookup_extractShardResult params ids trajMetas e.2.1 e.2.2 tid htin]
            exact (extractShardTrajectory_bounds params e.2.1 e.2.2 trajMetas tid hrate
              hszhdr hend).2
          · rw [resLookup_not_mem tid (extractShardResult params ids trajMetas e.2.1 e.2.2)
              (fun hk =>
                htin (List.mem_dedup.mp ((extract_keys_sublist ids.dedup).subset hk)))]
            simp
      -- cross-block separation, from sortedness of the keys plus the
      -- key-order / time-order consistency hypothesis
      have hsep : ∀ i j (hi : i < sorted.length) (hj : j < sorted.length), i < j →
          ∀ x ∈ resLookup tid (extractShardAt m fs params ids trajMetas st en i),
          ∀ y ∈ resLookup tid (extractShardAt m fs params ids trajMetas st en j),
            x.1 < y.1 := by
        intro i j hi hj hij x hx y hy
        obtain ⟨ei, hei, heki, _, hbi⟩ := hfacts i hi
        obtain ⟨ej, hej, hekj, _, hbj⟩ := hfacts j hj
        have hkey : ei.1 < ej.1 := by
          rw [heki, hekj]
          have hp := sortedRelevantShardKeys_pairwise m fs st en hkeys
          rw [List.pairwise_iff_get] at hp
          exact hp ⟨i, hi⟩ ⟨j, hj⟩ hij
        have hsepij := hord ei hei ej hej hkey
        have h1 := hbi x hx
        have h2 := hbj y hy
        omega
      -- nodup keys of every shard result, for the merge bookkeeping
      have hndres : ∀ r ∈ (List.range sorted.length).map
            (extractShardAt m fs params ids trajMetas st en),
          (r.map Prod.fst).Nodup := by
        intro r hr
        obtain ⟨i, _, rfl⟩ := List.mem_map.mp hr
        exact extractShardAt_keys_nodup m fs params ids trajMetas st en i
      by_cases hpres : ∃ tr ∈ initLoadedTrajectories ids trajMetas, tr.trajectoryId = tid
      · rw [samplesIn_mergeShardResults _ _ _ hpres hndres,
          samplesIn_initLoadedTrajectories, List.nil_append, List.map_map]
        refine chain'_le_flatten _ ?_ ?_
        · intro l hl
          obtain ⟨i, hi, rfl⟩ := List.mem_map.mp hl
          rw [List.mem_range] at hi
          obtain ⟨_, _, _, hpw, _⟩ := hfacts i hi
          exact hpw
        · refine List.pairwise_map.mpr ((List.pairwise_lt_range _).imp_of_mem ?_)
          intro i j hi hj hij
          rw [List.mem_range] at hi hj
          exact hsep i j hi hj hij
      · have habs : tid ∉ (mergeShardResults (initLoadedTrajectories ids trajMetas)
            ((List.range sorted.length).map
              (extractShardAt m fs params ids trajMetas st en))).map (·.trajectoryId) := by
          rw [mergeShardResults_ids]
          intro hmem
          exact hpres ((exists_id_iff_mem_map _ tid).mpr hmem)
        rw [samplesIn_eq_nil_of_absent _ _ habs]
        simp

/-- Witness for C1 (amended): a two-shard dataset whose filename indices agree
with its time order, processed in the reversed completion order [1, 0], still
yields non-decreasing times for trajectory 7. -/
theorem merge_order_invariant_witness :
    List.Chain' (· ≤ ·)
      ((loadedSamplesFor (LoadTrajectoriesInternalWithOrder
        { datasetPath := "ds", directoryExists := true, metaFileExists := true,
          trajMetaFileExists := true, meta := some exampleMeta,
          trajMeta := some [⟨7, 0, 9⟩],
          shards := [(0, swappedShardB), (1, swappedShardA)] }
        fullRangeParams [1, 0]) 7).map Prod.fst) :=
  merge_order_invariant
    { datasetPath := "ds", directoryExists := true, metaFileExists := true,
      trajMetaFileExists := true, meta := some exampleMeta,
      trajMeta := some [⟨7, 0, 9⟩],
      shards := [(0, swappedShardB), (1, swappedShardA)] }
    fullRangeParams [1, 0] 7 exampleMeta rfl (by decide) (by decide)
    (by decide) (by decide) (by decide) (by decide)

/-! ## C7: the time-range query returns dense, gap-filled series -/

theorem writeSlotStep_length (a b intervalStart : Int) (e : ShardEntry)
    (smp : List FVec) (r : Nat) :
    (writeSlotStep a b intervalStart e smp r).length = smp.length := by
  unfold writeSlotStep
  dsimp only
  split_ifs
  · cases e.positions.getD r none <;> simp
  · rfl
  · rfl

theorem foldl_writeSlotStep_length (a b intervalStart : Int) (e : ShardEntry) :
    ∀ (l : List Nat) (smp : List FVec),
      (l.foldl (writeSlotStep a b intervalStart e) smp).length = smp.length := by
  intro l
  induction l with
  | nil => intro smp; rfl
  | cons r t ih => intro smp; rw [List.foldl_cons, ih, writeSlotStep_length]

theorem writeEntrySlots_length (a b intervalStart size : Int) (e : ShardEntry)
    (smp : List FVec) :
    (writeEntrySlots a b intervalStart size e smp).length = smp.length :=
  foldl_writeSlotStep_length a b intervalStart e (List.range size.toNat) smp

theorem writeSlotStep_getD (a b intervalStart : Int) (e : ShardEntry)
    (smp : List FVec) (r j : Nat) (d : FVec) (hj : (j : Int) ≤ b - a)
    (hjlen : j < smp.length) :
    (writeSlotStep a b intervalStart e smp r).getD j d =
      if intervalStart + (r : Int) = a + (j : Int) ∧
          e.startTimeStepInInterval ≤ (r : Int) ∧
          (r : Int) ≤ e.startTimeStepInInterval + e.validSampleCount - 1 ∧
          (e.positions.getD r none).isSome = true then
        (e.positions.getD r none).getD d
      else smp.getD j d := by
  unfold writeSlotStep
  dsimp only
  by_cases h1 : a ≤ intervalStart + (r : Int) ∧ intervalStart + (r : Int) ≤ b
  · rw [if_pos h1]
    by_cases h2 : e.startTimeStepInInterval ≤ (r : Int) ∧
        (r : Int) ≤ e.startTimeStepInInterval + e.validSampleCount - 1
    · rw [if_pos h2]
      cases hp : e.positions.getD r none with
      | none =>
        rw [if_neg]
        rintro ⟨-, -, -, habs⟩
        exact Bool.false_ne_true habs
      | some v =>
        by_cases ht : intervalStart + (r : Int) = a + (j : Int)
        · rw [if_pos ⟨ht, h2.1, h2.2, rfl⟩]
          dsimp only
          have hidx : (intervalStart + (r : Int) - a).toNat = j := by omega
          rw [hidx, List.getD_eq_getElem?_getD, List.getElem?_set_self hjlen]
        · rw [if_neg (fun hc => ht hc.1)]
          dsimp only
          have hne : (intervalStart + (r : Int) - a).toNat ≠ j := by omega
          rw [List.getD_eq_getElem?_getD, List.getElem?_set_ne hne,
            ← List.getD_eq_getElem?_getD]
    · rw [if_neg h2, if_neg (fun hc => h2 ⟨hc.2.1, hc.2.2.1⟩)]
  · rw [if_neg h1, if_neg]
    rintro ⟨ht, -, -, -⟩
    exact h1 ⟨by omega, by omega⟩

theorem foldl_writeSlotStep_getD (a b intervalStart : Int) (e : ShardEntry)
    (smp : List FVec) (j : Nat) (d : FVec) (hj : (j : Int) ≤ b - a)
    (hjlen : j < smp.length) :
    ∀ n : Nat,
      ((List.range n).foldl (writeSlotStep a b intervalStart e) smp).getD j d =
        if 0 ≤ a + (j : Int) - intervalStart ∧
            a + (j : Int) - intervalStart < (n : Int) ∧
            e.startTimeStepInInterval ≤ a + (j : Int) - intervalStart ∧
            a + (j : Int) - intervalStart ≤
              e.startTimeStepInInterval + e.validSampleCount - 1 ∧
            (e.positions.getD (a + (j : Int) - intervalStart).toNat none).isSome
              = true then
          (e.positions.getD (a + (j : Int) - intervalStart).toNat none).getD d
        else smp.getD j d := by
  intro n
  induction n with
  | zero =>
    rw [if_neg]
    · rfl
    · rintro ⟨h1, h2, -⟩
      omega
  | succ n ih =>
    rw [List.range_succ, List.foldl_append, List.foldl_cons, List.foldl_nil]
    have hlen2 : j < ((List.range n).foldl (writeSlotStep a b intervalStart e)
        smp).length := by
      rw [foldl_writeSlotStep_length]
      exact hjlen
    rw [writeSlotStep_getD a b intervalStart e _ n j d hj hlen2, ih]
    by_cases hr : intervalStart + (n : Int) = a + (j : Int)
    · have hr0 : a + (j : Int) - intervalStart = (n : Int) := by omega
      rw [hr0]
      simp only [Int.toNat_natCast]
      by_cases hP : e.startTimeStepInInterval ≤ (n : Int) ∧
          (n : Int) ≤ e.startTimeStepInInterval + e.validSampleCount - 1 ∧
          (e.positions.getD n none).isSome = true
      · rw [if_pos ⟨hr, hP.1, hP.2.1, hP.2.2⟩,
          if_pos ⟨by omega, by omega, hP.1, hP.2.1, hP.2.2⟩]
      · have hcs : ¬(intervalStart + (n : Int) = a + (j : Int) ∧
            e.startTimeStepInInterval ≤ (n : Int) ∧
            (n : Int) ≤ e.startTimeStepInInterval + e.validSampleCount - 1 ∧
            (e.positions.getD n none).isSome = true) :=
          fun hc => hP ⟨hc.2.1, hc.2.2.1, hc.2.2.2⟩
        have hcn : ¬(0 ≤ (n : Int) ∧ (n : Int) < (n : Int) ∧
            e.startTimeStepInInterval ≤ (n : Int) ∧
            (n : Int) ≤ e.startTimeStepInInterval + e.validSampleCount - 1 ∧
            (e.positions.getD n none).isSome = true) := by
          rintro ⟨-, habs, -⟩
          omega
        have hcn1 : ¬(0 ≤ (n : Int) ∧ (n : Int) < ((n + 1 : Nat) : Int) ∧
            e.startTimeStepInInterval ≤ (n : Int) ∧
            (n : Int) ≤ e.startTimeStepInInterval + e.validSampleCount - 1 ∧
            (e.positions.getD n none).isSome = true) :=
          fun hc => hP ⟨hc.2.2.1, hc.2.2.2.1, hc.2.2.2.2⟩
        rw [if_neg hcs, if_neg hcn, if_neg hcn1]
    · rw [if_neg (fun hc => hr hc.1)]
      by_cases hQ : 0 ≤ a + (j : Int) - intervalStart ∧
          a + (j : Int) - intervalStart < (n : Int) ∧
          e.startTimeStepInInterval ≤ a + (j : Int) - intervalStart ∧
          a + (j : Int) - intervalStart ≤
            e.startTimeStepInInterval + e.validSampleCount - 1 ∧
          (e.positions.getD (a + (j : Int) - intervalStart).toNat none).isSome
            = true
      · obtain ⟨hQ1, hQ2, hQ3, hQ4, hQ5⟩ := hQ
        rw [if_pos ⟨hQ1, hQ2, hQ3, hQ4, hQ5⟩, if_pos ⟨hQ1, by omega, hQ3, hQ4, hQ5⟩]
      · rw [if_neg hQ, if_neg]
        rintro ⟨hc1, hc2, hc3, hc4, hc5⟩
        exact hQ ⟨hc1, by omega, hc3, hc4, hc5⟩

theorem writeEntrySlots_getD (a b intervalStart size : Int) (e : ShardEntry)
    (smp : List FVec) (j : Nat) (d : FVec) (hj : (j : Int) ≤ b - a)
    (hjlen : j < smp.length) (hsz : 0 ≤ size) :
    (writeEntrySlots a b intervalStart size e smp).getD j d =
      if 0 ≤ a + (j : Int) - intervalStart ∧ a + (j : Int) - intervalStart < size ∧
          e.startTimeStepInInterval ≤ a + (j : Int) - intervalStart ∧
          a + (j : Int) - intervalStart ≤
            e.startTimeStepInInterval + e.validSampleCount - 1 ∧
          (e.positions.getD (a + (j : Int) - intervalStart).toNat none).isSome
            = true then
        (e.positions.getD (a + (j : Int) - intervalStart).toNat none).getD d
      else smp.getD j d := by
  unfold writeEntrySlots
  rw [foldl_writeSlotStep_getD a b intervalStart e smp j d hj hjlen size.toNat,
    Int.toNat_of_nonneg hsz]

theorem find_map_of_pred_eq {α : Type} (l : List α) (g : α → α) (p : α → Bool)
    (hg : ∀ x, p (g x) = p x) :
    (l.map g).find? p = (l.find? p).map g := by
  induction l with
  | nil => rfl
  | cons x t ih =>
    by_cases hx : p x = true
    · rw [List.map_cons,
        @List.find?_cons_of_pos _ p (g x) (t.map g) (by rw [hg]; exact hx),
        @List.find?_cons_of_pos _ p x t hx]
      rfl
    · rw [List.map_cons,
        @List.find?_cons_of_neg _ p (g x) (t.map g) (by rw [hg]; exact hx),
        @List.find?_cons_of_neg _ p x t hx]
      exact ih

theorem find_applyShardEntry (a b iS size : Int) (e : ShardEntry)
    (sl : List FTrajectoryTimeSeries) (tid : Int) :
    (applyShardEntry a b iS size sl e).find? (fun x => x.trajectoryId == tid) =
      (sl.find? (fun x => x.trajectoryId == tid)).map (fun s =>
        if s.trajectoryId = e.trajectoryId ∧ e.startTimeStepInInterval ≠ -1 then
          { s with samples := (writeEntrySlots a b iS size e s.samples) }
        else s) := by
  unfold applyShardEntry
  apply find_map_of_pred_eq
  intro x
  by_cases hx : x.trajectoryId = e.trajectoryId ∧ e.startTimeStepInInterval ≠ -1
  · rw [if_pos hx]
  · rw [if_neg hx]

theorem find_afterEntries (a b iS size : Int) (entries : List ShardEntry) :
    ∀ (sl : List FTrajectoryTimeSeries) (tid : Int) (s : FTrajectoryTimeSeries),
      sl.find? (fun x => x.trajectoryId == tid) = some s →
      s.trajectoryId = tid →
      ((entries.map (fun e => e.trajectoryId)).Nodup) →
      (entries.foldl (applyShardEntry a b iS size) sl).find?
          (fun x => x.trajectoryId == tid) =
        some (match entries.find? (fun e => e.trajectoryId == tid) with
          | none => s
          | some e =>
            if e.startTimeStepInInterval ≠ -1 then
              { s with samples := (writeEntrySlots a b iS size e s.samples) }
            else s) := by
  induction entries with
  | nil =>
    intro sl tid s hfind _ _
    simpa using hfind
  | cons e rest ih =>
    intro sl tid s hfind hstid hnd
    rw [List.map_cons, List.nodup_cons] at hnd
    rw [List.foldl_cons]
    by_cases he : e.trajectoryId = tid
    · rw [@List.find?_cons_of_pos _ (fun x => x.trajectoryId == tid) e rest
        (by simpa using he)]
      have hrestnone : rest.find? (fun x => x.trajectoryId == tid) = none := by
        rw [List.find?_eq_none]
        intro x hx
        simp only [beq_iff_eq, Bool.not_eq_true]
        by_cases hxx : x.trajectoryId = tid
        · exact absurd (by rw [he, ← hxx]; exact List.mem_map_of_mem _ hx) hnd.1
        · simpa using hxx
      have hse : s.trajectoryId = e.trajectoryId := by rw [hstid, he]
      by_cases hstart : e.startTimeStepInInterval ≠ -1
      · have hfind3 : (applyShardEntry a b iS size sl e).find?
            (fun x => x.trajectoryId == tid) =
            some { s with samples := (writeEntrySlots a b iS size e s.samples) } := by
          rw [find_applyShardEntry, hfind]
          dsimp only [Option.map]
          rw [if_pos ⟨hse, hstart⟩]
        have := ih (applyShardEntry a b iS size sl e) tid
          { s with samples := (writeEntrySlots a b iS size e s.samples) }
          hfind3 hstid hnd.2
        rw [this, hrestnone]
        dsimp only
        rw [if_pos hstart]
      · have hfind3 : (applyShardEntry a b iS size sl e).find?
            (fun x => x.trajectoryId == tid) = some s := by
          rw [find_applyShardEntry, hfind]
          dsimp only [Option.map]
          rw [if_neg (fun hc => hstart hc.2)]
        have := ih (applyShardEntry a b iS size sl e) tid s hfind3 hstid hnd.2
        rw [this, hrestnone]
        dsimp only
        rw [if_neg hstart]
    · rw [@List.find?_cons_of_neg _ (fun x => x.trajectoryId == tid) e rest
        (by simpa using he)]
      have hfind3 : (applyShardEntry a b iS size sl e).find?
          (fun x => x.trajectoryId == tid) = some s := by
        rw [find_applyShardEntry, hfind]
        dsimp only [Option.map]
        rw [if_neg]
        rintro ⟨hc, -⟩
        exact he (by rw [← hc, hstid])
      exact ih (applyShardEntry a b iS size sl e) tid s hfind3 hstid hnd.2

theorem find_initQuerySeries (ids : List Int) (a b tid : Int)
    (hmem : tid ∈ ids.dedup) :
    (initQuerySeries ids a b).find? (fun x => x.trajectoryId == tid) =
      some ⟨tid, a, b, List.replicate (b - a + 1).toNat fvecZero⟩ := by
  unfold initQuerySeries
  have aux : ∀ l : List Int, tid ∈ l →
      (l.map (fun i => (⟨i, a, b, List.replicate (b - a + 1).toNat fvecZero⟩ :
          FTrajectoryTimeSeries))).find? (fun x => x.trajectoryId == tid) =
        some ⟨tid, a, b, List.replicate (b - a + 1).toNat fvecZero⟩ := by
    intro l
    induction l with
    | nil => intro h; simp at h
    | cons x t ih =>
      intro h
      rw [List.map_cons]
      by_cases hx : x = tid
      · rw [@List.find?_cons_of_pos _ (fun y : FTrajectoryTimeSeries => y.trajectoryId == tid)
          ⟨x, a, b, List.replicate (b - a + 1).toNat fvecZero⟩
          (t.map (fun i => (⟨i, a, b, List.replicate (b - a + 1).toNat fvecZero⟩ :
            FTrajectoryTimeSeries))) (by simpa using hx), hx]
      · rw [@List.find?_cons_of_neg _ (fun y : FTrajectoryTimeSeries => y.trajectoryId == tid)
          ⟨x, a, b, List.replicate (b - a + 1).toNat fvecZero⟩
          (t.map (fun i => (⟨i, a, b, List.replicate (b - a + 1).toNat fvecZero⟩ :
            FTrajectoryTimeSeries))) (by simpa using hx)]
        cases List.mem_cons.mp h with
        | inl h1 => exact absurd h1.symm hx
        | inr h1 => exact ih h1
  exact aux ids.dedup hmem

theorem tdiv_idx_bounds (first size t : Int) (hsz : 1 ≤ size) (ht : first ≤ t) :
    ((t - first).tdiv size) * size ≤ t - first ∧
      t - first < ((t - first).tdiv size) * size + size := by
  rw [Int.tdiv_eq_ediv (by omega) (by omega)]
  constructor
  · exact (Int.le_ediv_iff_mul_le (by omega)).mp (le_refl _)
  · have h := Int.lt_ediv_add_one_mul_self (t - first) (show (0 : Int) < size by omega)
    rw [add_mul, one_mul] at h
    exact h

theorem tdiv_idx_mono (first size t u : Int) (hsz : 1 ≤ size) (ht : first ≤ t)
    (htu : t ≤ u) :
    (t - first).tdiv size ≤ (u - first).tdiv size := by
  rw [Int.tdiv_eq_ediv (by omega) (by omega),
    Int.tdiv_eq_ediv (by omega) (by omega)]
  exact Int.ediv_le_ediv (by omega) (by omega)

theorem mul_le_mul_right_int (p q size : Int) (hpq : p ≤ q) (hsz : 0 ≤ size) :
    p * size ≤ q * size :=
  mul_le_mul_of_nonneg_right hpq hsz

/-- Invariant of ExecuteTimeRangeQuery's shard loop: after the first n shard
indices have been visited, the series kept for tid has a full-length dense
sample array whose slot j holds the stored valid sample of time step a + j
when that step's interval has already been visited, and the zero vector
otherwise. -/
theorem query_fold_invariant (meta : FDatasetMetaBinary) (fs : DatasetFS)
    (a b : Int) (ids : List Int) (tid : Int)
    (hfa : meta.firstTimeStep ≤ a) (hsz : 1 ≤ meta.timeStepIntervalSize)
    (hent : ∀ kv ∈ fs.shards,
      ((kv.2.entries.take kv.2.header.trajectoryEntryCount.toNat).map
        (fun e => e.trajectoryId)).Nodup)
    (hmem : tid ∈ ids.dedup) :
    ∀ n : Nat, ∃ s,
      ((List.range n).foldl
          (queryShardStep meta fs a b
            ((a - meta.firstTimeStep).tdiv meta.timeStepIntervalSize))
          (initQuerySeries ids a b)).find? (fun x => x.trajectoryId == tid)
        = some s ∧
      s.trajectoryId = tid ∧
      s.samples.length = (b - a + 1).toNat ∧
      ∀ j : Nat, (j : Int) ≤ b - a →
        s.samples.getD j fvecZero =
          if (a + (j : Int) - meta.firstTimeStep).tdiv meta.timeStepIntervalSize <
              (a - meta.firstTimeStep).tdiv meta.timeStepIntervalSize + (n : Int) then
            (storedValidSampleAt meta fs tid (a + (j : Int))).getD fvecZero
          else fvecZero := by
  set si := (a - meta.firstTimeStep).tdiv meta.timeStepIntervalSize with hsi
  intro n
  induction n with
  | zero =>
    refine ⟨⟨tid, a, b, List.replicate (b - a + 1).toNat fvecZero⟩,
      find_initQuerySeries ids a b tid hmem, rfl, by simp, ?_⟩
    intro j hj
    rw [if_neg]
    · show (List.replicate (b - a + 1).toNat fvecZero).getD j fvecZero = fvecZero
      rw [List.getD_eq_getElem?_getD,
        List.getElem?_replicate_of_lt (show j < (b - a + 1).toNat by omega)]
      rfl
    · have hmono := tdiv_idx_mono meta.firstTimeStep meta.timeStepIntervalSize
        a (a + (j : Int)) hsz hfa (by omega)
      rw [← hsi] at hmono
      omega
  | succ n ih =>
    obtain ⟨s, hfind, htid, hlen, hval⟩ := ih
    rw [List.range_succ, List.foldl_append, List.foldl_cons, List.foldl_nil]
    cases hlook : lookupShardFile fs (si + (n : Int)) with
    | none =>
      refine ⟨s, ?_, htid, hlen, ?_⟩
      · unfold queryShardStep
        rw [hlook]
        exact hfind
      · intro j hj
        rw [hval j hj]
        by_cases hq : (a + (j : Int) - meta.firstTimeStep).tdiv
            meta.timeStepIntervalSize = si + (n : Int)
        · rw [if_neg (by omega), if_pos (by omega)]
          simp only [storedValidSampleAt]
          rw [hq, hlook]
          rfl
        · by_cases hq2 : (a + (j : Int) - meta.firstTimeStep).tdiv
              meta.timeStepIntervalSize < si + (n : Int)
          · rw [if_pos hq2, if_pos (by omega)]
          · rw [if_neg hq2, if_neg (by omega)]
    | some file =>
      have hkv : ∃ kv, kv ∈ fs.shards ∧ kv.2 = file := by
        unfold lookupShardFile at hlook
        cases hfo : fs.shards.find? (fun kv => kv.1 == si + (n : Int)) with
        | none => rw [hfo] at hlook; exact absurd hlook (by simp)
        | some kv =>
          rw [hfo] at hlook
          exact ⟨kv, List.mem_of_find?_eq_some hfo, by simpa using hlook⟩
      have hnd2 : ((file.entries.take file.header.trajectoryEntryCount.toNat).map
          (fun e => e.trajectoryId)).Nodup := by
        obtain ⟨kv, hkvmem, hkvf⟩ := hkv
        rw [← hkvf]
        exact hent kv hkvmem
      set iS := (si + (n : Int)) * meta.timeStepIntervalSize + meta.firstTimeStep
        with hiS
      have hstep : ∀ sl : List FTrajectoryTimeSeries,
          queryShardStep meta fs a b si sl n =
            ((file.entries.take file.header.trajectoryEntryCount.toNat).foldl
              (applyShardEntry a b iS meta.timeStepIntervalSize) sl) := by
        intro sl
        unfold queryShardStep
        rw [hlook]
        rfl
      rw [hstep]
      have hmain := find_afterEntries a b iS meta.timeStepIntervalSize
        (file.entries.take file.header.trajectoryEntryCount.toNat)
        ((List.range n).foldl (queryShardStep meta fs a b si)
          (initQuerySeries ids a b)) tid s hfind htid hnd2
      cases hef : (file.entries.take file.header.trajectoryEntryCount.toNat).find?
          (fun e => e.trajectoryId == tid) with
      | none =>
        rw [hef] at hmain
        refine ⟨s, hmain, htid, hlen, ?_⟩
        intro j hj
        rw [hval j hj]
        by_cases hq : (a + (j : Int) - meta.firstTimeStep).tdiv
            meta.timeStepIntervalSize = si + (n : Int)
        · rw [if_neg (by omega), if_pos (by omega)]
          simp only [storedValidSampleAt]
          rw [hq, hlook]
          dsimp only
          rw [hef]
          rfl
        · by_cases hq2 : (a + (j : Int) - meta.firstTimeStep).tdiv
              meta.timeStepIntervalSize < si + (n : Int)
          · rw [if_pos hq2, if_pos (by omega)]
          · rw [if_neg hq2, if_neg (by omega)]
      | some e =>
        rw [hef] at hmain
        dsimp only at hmain
        by_cases hstart : e.startTimeStepInInterval ≠ -1
        · rw [if_pos hstart] at hmain
          refine ⟨{ s with samples := (writeEntrySlots a b iS
            meta.timeStepIntervalSize e s.samples) }, hmain, htid, ?_, ?_⟩
          · dsimp only
            rw [writeEntrySlots_length]
            exact hlen
          · intro j hj
            dsimp only
            have hjlen2 : j < s.samples.length := by rw [hlen]; omega
            rw [writeEntrySlots_getD a b iS meta.timeStepIntervalSize e s.samples
              j fvecZero hj hjlen2 (by omega), hval j hj]
            by_cases hq : (a + (j : Int) - meta.firstTimeStep).tdiv
                meta.timeStepIntervalSize = si + (n : Int)
            · have hb := tdiv_idx_bounds meta.firstTimeStep
                meta.timeStepIntervalSize (a + (j : Int)) hsz (by omega)
              rw [hq] at hb
              have hr0a : 0 ≤ a + (j : Int) - iS := by rw [hiS]; omega
              have hr0b : a + (j : Int) - iS < meta.timeStepIntervalSize := by
                rw [hiS]; omega
              by_cases hw : e.startTimeStepInInterval ≤ a + (j : Int) - iS ∧
                  a + (j : Int) - iS ≤
                    e.startTimeStepInInterval + e.validSampleCount - 1
              · by_cases hso : (e.positions.getD ((a + (j : Int) - iS).toNat)
                    none).isSome = true
                · rw [if_pos ⟨hr0a, hr0b, hw.1, hw.2, hso⟩, if_pos (by omega)]
                  simp only [storedValidSampleAt]
                  rw [hq, hlook]
                  dsimp only
                  rw [hef]
                  dsimp only
                  rw [← hiS, if_pos ⟨hstart, hw.1, hw.2⟩]
                · rw [if_neg (by rintro ⟨-, -, -, -, hc⟩; exact hso hc),
                    if_neg (by omega), if_pos (by omega)]
                  simp only [storedValidSampleAt]
                  rw [hq, hlook]
                  dsimp only
                  rw [hef]
                  dsimp only
                  rw [← hiS, if_pos ⟨hstart, hw.1, hw.2⟩,
                    Option.not_isSome_iff_eq_none.mp hso]
                  rfl
              · rw [if_neg (by rintro ⟨-, -, hc1, hc2, -⟩; exact hw ⟨hc1, hc2⟩),
                  if_neg (by omega), if_pos (by omega)]
                simp only [storedValidSampleAt]
                rw [hq, hlook]
                dsimp only
                rw [hef]
                dsimp only
                rw [← hiS, if_neg (fun hc => hw ⟨hc.2.1, hc.2.2⟩)]
                rfl
            · by_cases hq2 : (a + (j : Int) - meta.firstTimeStep).tdiv
                  meta.timeStepIntervalSize < si + (n : Int)
              · have hb := tdiv_idx_bounds meta.firstTimeStep
                  meta.timeStepIntervalSize (a + (j : Int)) hsz (by omega)
                have hmul : ((a + (j : Int) - meta.firstTimeStep).tdiv
                      meta.timeStepIntervalSize + 1) * meta.timeStepIntervalSize ≤
                    (si + (n : Int)) * meta.timeStepIntervalSize :=
                  mul_le_mul_right_int _ _ _ (by omega) (by omega)
                rw [add_mul, one_mul] at hmul
                have hr0 : a + (j : Int) - iS < 0 := by rw [hiS]; omega
                rw [if_neg (by rintro ⟨hc, -⟩; omega), if_pos hq2,
                  if_pos (by omega)]
              · have hb := tdiv_idx_bounds meta.firstTimeStep
                  meta.timeStepIntervalSize (a + (j : Int)) hsz (by omega)
                have hmul : (si + (n : Int) + 1) * meta.timeStepIntervalSize ≤
                    ((a + (j : Int) - meta.firstTimeStep).tdiv
                      meta.timeStepIntervalSize) * meta.timeStepIntervalSize :=
                  mul_le_mul_right_int _ _ _ (by omega) (by omega)
                rw [add_mul, one_mul] at hmul
                have hr0 : ¬(a + (j : Int) - iS < meta.timeStepIntervalSize) := by
                  rw [hiS]; omega
                rw [if_neg (by rintro ⟨-, hc, -⟩; exact hr0 hc), if_neg hq2,
                  if_neg (by omega)]
        · rw [if_neg hstart] at hmain
          refine ⟨s, hmain, htid, hlen, ?_⟩
          intro j hj
          rw [hval j hj]
          by_cases hq : (a + (j : Int) - meta.firstTimeStep).tdiv
              meta.timeStepIntervalSize = si + (n : Int)
          · rw [if_neg (by omega), if_pos (by omega)]
            simp only [storedValidSampleAt]
            rw [hq, hlook]
            dsimp only
            rw [hef]
            dsimp only
            rw [← hiS, if_neg (fun hc => hstart hc.1)]
            rfl
          · by_cases hq2 : (a + (j : Int) - meta.firstTimeStep).tdiv
                meta.timeStepIntervalSize < si + (n : Int)
            · rw [if_pos hq2, if_pos (by omega)]
            · rw [if_neg hq2, if_neg (by omega)]

/-- C7: for every time-range query over [a, b] that completes successfully
(the dataset directory and both metadata files exist and parse, the requested
range lies inside the dataset's range, the interval size is positive, and each
shard's counted entries carry distinct trajectory ids), each requested
trajectory's returned time series contains exactly b - a + 1 sample slots, and
slot j holds the valid (non-NaN) stored sample for time step a + j when the
dataset holds one, and remains the zero vector otherwise. -/
theorem time_range_query_dense_gap_filled (fs : DatasetFS)
    (trajectoryIds : List Int) (a b : Int) (meta : FDatasetMetaBinary)
    (tms : List FTrajectoryMetaBinary)
    (hdir : fs.directoryExists = true) (hmf : fs.metaFileExists = true)
    (htmf : fs.trajMetaFileExists = true) (hm : fs.meta = some meta)
    (htm : fs.trajMeta = some tms) (hab : a ≤ b) (hfa : meta.firstTimeStep ≤ a)
    (hbl : b ≤ meta.lastTimeStep) (hsz : 1 ≤ meta.timeStepIntervalSize)
    (hent : ∀ kv ∈ fs.shards,
      ((kv.2.entries.take kv.2.header.trajectoryEntryCount.toNat).map
        (fun e => e.trajectoryId)).Nodup) :
    (ExecuteTimeRangeQuery fs trajectoryIds a b).bSuccess = true ∧
    ∀ tid ∈ trajectoryIds, ∃ s,
      seriesFor (ExecuteTimeRangeQuery fs trajectoryIds a b) tid = some s ∧
      s.trajectoryId = tid ∧ (s.samples.length : Int) = b - a + 1 ∧
      ∀ j : Nat, (j : Int) ≤ b - a →
        s.samples.getD j fvecZero =
          (storedValidSampleAt meta fs tid (a + (j : Int))).getD fvecZero := by
  have hquery : ExecuteTimeRangeQuery fs trajectoryIds a b =
      ⟨true, "",
       (List.range
          ((b - meta.firstTimeStep).tdiv meta.timeStepIntervalSize -
            (a - meta.firstTimeStep).tdiv meta.timeStepIntervalSize
            + 1).toNat).foldl
         (queryShardStep meta fs a b
           ((a - meta.firstTimeStep).tdiv meta.timeStepIntervalSize))
         (initQuerySeries trajectoryIds a b)⟩ := by
    unfold ExecuteTimeRangeQuery
    rw [hdir, hmf, htmf, hm, htm]
    simp only [Bool.not_true, Bool.false_eq_true, if_false]
    rw [if_neg (by omega)]
  refine ⟨by rw [hquery], ?_⟩
  intro tid hmemids
  obtain ⟨s, hfind, htid, hlen, hval⟩ := query_fold_invariant meta fs a b
    trajectoryIds tid hfa hsz hent (List.mem_dedup.mpr hmemids)
    ((b - meta.firstTimeStep).tdiv meta.timeStepIntervalSize -
      (a - meta.firstTimeStep).tdiv meta.timeStepIntervalSize + 1).toNat
  refine ⟨s, ?_, htid, ?_, ?_⟩
  · unfold seriesFor
    rw [hquery]
    exact hfind
  · rw [hlen, Int.toNat_of_nonneg (by omega)]
  · intro j hj
    have h1 := tdiv_idx_mono meta.firstTimeStep meta.timeStepIntervalSize
      (a + (j : Int)) b hsz (by omega) (by omega)
    have h2 := tdiv_idx_mono meta.firstTimeStep meta.timeStepIntervalSize
      a b hsz hfa hab
    rw [hval j hj, if_pos (by omega)]

/-- Witness for C7: a well-formed one-shard dataset (the second shard file is
missing and skipped) queried over its full range 0..9 for trajectory 7. -/
theorem time_range_query_dense_gap_filled_witness :
    (ExecuteTimeRangeQuery queryFS [7] 0 9).bSuccess = true ∧
    ∀ tid ∈ [(7 : Int)], ∃ s,
      seriesFor (ExecuteTimeRangeQuery queryFS [7] 0 9) tid = some s ∧
      s.trajectoryId = tid ∧ (s.samples.length : Int) = 9 - 0 + 1 ∧
      ∀ j : Nat, (j : Int) ≤ 9 - 0 →
        s.samples.getD j fvecZero =
          (storedValidSampleAt exampleMeta queryFS tid
            (0 + (j : Int))).getD fvecZero :=
  time_range_query_dense_gap_filled queryFS [7] 0 9 exampleMeta [⟨7, 0, 9⟩]
    rfl rfl rfl rfl rfl (by decide) (by decide) (by decide) (by decide)
    (by decide)

end TrajectoryData
